import Mathlib

/-!
# jpge / jpgd command-line driver: a verification development

A shallow embedding of the parts of `jpge.h`, `jpgd.h` and the command-line
driver (`TGA to JPEG.cpp`) that the specification talks about, followed by
theorems about them.

Conventions of the embedding:

* C `int` values are `Int`; a cast to `uint` is reduction modulo `2^32`, and the
  pixel offsets of `image_compare` are `none` when they leave the 32-bit range;
* a C string is the list of its characters before the terminating NUL; a copy
  into a `char` array that does not hold the string and its NUL ends the defined
  behaviour of `main`;
* `double` measurements (PSNR, maximum error) are rationals: no NaN and no
  rounding, comparisons and subtraction are exact;
* the codec itself (encoder, decoder, image loader, file system) is not part of
  the three source files; where the driver calls it, the outcome of the call is
  a parameter of the model.
-/

namespace jpge

/-! ## `jpge.h` -/

/-- `typedef unsigned char uint8`. -/
abbrev uint8 := Fin 256

/-- `enum subsampling_t { Y_ONLY = 0, H1V1 = 1, H2V1 = 2, H2V2 = 3 }`. -/
def Y_ONLY : Int := 0
/-- See `Y_ONLY`. -/
def H1V1 : Int := 1
/-- See `Y_ONLY`. -/
def H2V1 : Int := 2
/-- See `Y_ONLY`. -/
def H2V2 : Int := 3

/-- The C cast `(uint)x` of a 32-bit `int` (or enum) value. -/
def toUint (x : Int) : Int := x % 2 ^ 32

/-- A value that fits the 32-bit signed `int` that stores an enum or an `int`. -/
def isInt32 (x : Int) : Prop := -(2 ^ 31) ≤ x ∧ x < 2 ^ 31

instance (x : Int) : Decidable (isInt32 x) := by
  unfold isInt32; infer_instance

/-- `struct params`: `m_subsampling` holds the stored value of the enum. -/
structure params where
  m_quality : Int
  m_subsampling : Int
  m_no_chroma_discrim_flag : Bool
  m_two_pass_flag : Bool
deriving DecidableEq, Repr

/-- The default member initializer written at the declaration `int m_quality=75;`. -/
def params.m_quality_member_default : Int := 75

/-- `params::params()`: every member has a mem-initializer in the constructor, and
a mem-initializer takes precedence over a default member initializer. -/
def params.ctor : params :=
  { m_quality := 85
    m_subsampling := H2V2
    m_no_chroma_discrim_flag := false
    m_two_pass_flag := false }

/-- `params::check()`. -/
def params.check (p : params) : Bool :=
  if p.m_quality < 1 ∨ p.m_quality > 100 then false
  else if toUint p.m_subsampling > toUint H2V2 then false
  else true

/-- The fields of `class jpeg_encoder` (pointers and the stream are left out). -/
structure jpeg_encoder where
  m_params : params
  m_num_components : Nat
  m_comp_h_samp : List Nat
  m_comp_v_samp : List Nat
  m_image_x : Int
  m_image_y : Int
  m_image_bpp : Int
  m_image_bpl : Int
  m_image_x_mcu : Int
  m_image_y_mcu : Int
  m_image_bpl_xlt : Int
  m_image_bpl_mcu : Int
  m_mcus_per_row : Int
  m_mcu_x : Int
  m_mcu_y : Int
  m_mcu_y_ofs : Nat
  m_sample_array : List Int
  m_coefficient_array : List Int
  m_last_dc_val : List Int
  m_out_buf_left : Nat
  m_bit_buffer : Nat
  m_bits_in : Nat
  m_pass_num : Nat
  m_all_stream_writes_succeeded : Bool

/-- `jpeg_encoder::get_total_passes()`. -/
def jpeg_encoder.get_total_passes (e : jpeg_encoder) : Nat :=
  if e.m_params.m_two_pass_flag then 2 else 1

/-- `jpeg_encoder::get_cur_pass()`. -/
def jpeg_encoder.get_cur_pass (e : jpeg_encoder) : Nat := e.m_pass_num

/-- An encoder state in its second pass over a 4x4 image, with two-pass parameters. -/
def encoder_example : jpeg_encoder :=
  { m_params := ⟨90, 1, false, true⟩
    m_num_components := 3
    m_comp_h_samp := [1, 1, 1]
    m_comp_v_samp := [1, 1, 1]
    m_image_x := 4
    m_image_y := 4
    m_image_bpp := 3
    m_image_bpl := 12
    m_image_x_mcu := 8
    m_image_y_mcu := 8
    m_image_bpl_xlt := 12
    m_image_bpl_mcu := 24
    m_mcus_per_row := 1
    m_mcu_x := 8
    m_mcu_y := 8
    m_mcu_y_ofs := 0
    m_sample_array := []
    m_coefficient_array := []
    m_last_dc_val := [0, 0, 0]
    m_out_buf_left := 2048
    m_bit_buffer := 0
    m_bits_in := 0
    m_pass_num := 2
    m_all_stream_writes_succeeded := true }

end jpge

namespace jpgd

/-! ## `jpgd.h` -/

/-- The anonymous enum of decoder limits in `jpgd.h`. -/
def JPGD_IN_BUF_SIZE : Nat := 8192
/-- See `JPGD_IN_BUF_SIZE`. -/
def JPGD_MAX_BLOCKS_PER_MCU : Nat := 10
/-- See `JPGD_IN_BUF_SIZE`. -/
def JPGD_MAX_HUFF_TABLES : Nat := 8
/-- See `JPGD_IN_BUF_SIZE`. -/
def JPGD_MAX_QUANT_TABLES : Nat := 4
/-- See `JPGD_IN_BUF_SIZE`. -/
def JPGD_MAX_COMPONENTS : Nat := 4
/-- See `JPGD_IN_BUF_SIZE`. -/
def JPGD_MAX_COMPS_IN_SCAN : Nat := 4
/-- See `JPGD_IN_BUF_SIZE`. -/
def JPGD_MAX_BLOCKS_PER_ROW : Nat := 8192
/-- See `JPGD_IN_BUF_SIZE`. -/
def JPGD_MAX_HEIGHT : Nat := 16384
/-- See `JPGD_IN_BUF_SIZE`. -/
def JPGD_MAX_WIDTH : Nat := 16384

/-- The enumerators of `enum jpgd_status`, in declaration order. -/
inductive jpgd_status where
  | JPGD_SUCCESS
  | JPGD_FAILED
  | JPGD_DONE
  | JPGD_BAD_DHT_COUNTS
  | JPGD_BAD_DHT_INDEX
  | JPGD_BAD_DHT_MARKER
  | JPGD_BAD_DQT_MARKER
  | JPGD_BAD_DQT_TABLE
  | JPGD_BAD_PRECISION
  | JPGD_BAD_HEIGHT
  | JPGD_BAD_WIDTH
  | JPGD_TOO_MANY_COMPONENTS
  | JPGD_BAD_SOF_LENGTH
  | JPGD_BAD_VARIABLE_MARKER
  | JPGD_BAD_DRI_LENGTH
  | JPGD_BAD_SOS_LENGTH
  | JPGD_BAD_SOS_COMP_ID
  | JPGD_W_EXTRA_BYTES_BEFORE_MARKER
  | JPGD_NO_ARITHMITIC_SUPPORT
  | JPGD_UNEXPECTED_MARKER
  | JPGD_NOT_JPEG
  | JPGD_UNSUPPORTED_MARKER
  | JPGD_BAD_DQT_LENGTH
  | JPGD_TOO_MANY_BLOCKS
  | JPGD_UNDEFINED_QUANT_TABLE
  | JPGD_UNDEFINED_HUFF_TABLE
  | JPGD_NOT_SINGLE_SCAN
  | JPGD_UNSUPPORTED_COLORSPACE
  | JPGD_UNSUPPORTED_SAMP_FACTORS
  | JPGD_DECODE_ERROR
  | JPGD_BAD_RESTART_MARKER
  | JPGD_ASSERTION_ERROR
  | JPGD_BAD_SOS_SPECTRAL
  | JPGD_BAD_SOS_SUCCESSIVE
  | JPGD_STREAM_READ
  | JPGD_NOTENOUGHMEM
deriving DecidableEq, Repr

/-- The declaration of `enum jpgd_status` (lines 28-39): each enumerator with its
initializer, `none` where it has none. -/
def jpgd_status.declaration : List (jpgd_status × Option Int) :=
  [
    (.JPGD_SUCCESS, some 0), (.JPGD_FAILED, some (-1)), (.JPGD_DONE, some 1),
    (.JPGD_BAD_DHT_COUNTS, some (-256)), (.JPGD_BAD_DHT_INDEX, none),
    (.JPGD_BAD_DHT_MARKER, none), (.JPGD_BAD_DQT_MARKER, none), (.JPGD_BAD_DQT_TABLE, none),
    (.JPGD_BAD_PRECISION, none), (.JPGD_BAD_HEIGHT, none), (.JPGD_BAD_WIDTH, none),
    (.JPGD_TOO_MANY_COMPONENTS, none), (.JPGD_BAD_SOF_LENGTH, none),
    (.JPGD_BAD_VARIABLE_MARKER, none), (.JPGD_BAD_DRI_LENGTH, none),
    (.JPGD_BAD_SOS_LENGTH, none), (.JPGD_BAD_SOS_COMP_ID, none),
    (.JPGD_W_EXTRA_BYTES_BEFORE_MARKER, none), (.JPGD_NO_ARITHMITIC_SUPPORT, none),
    (.JPGD_UNEXPECTED_MARKER, none), (.JPGD_NOT_JPEG, none), (.JPGD_UNSUPPORTED_MARKER, none),
    (.JPGD_BAD_DQT_LENGTH, none), (.JPGD_TOO_MANY_BLOCKS, none),
    (.JPGD_UNDEFINED_QUANT_TABLE, none), (.JPGD_UNDEFINED_HUFF_TABLE, none),
    (.JPGD_NOT_SINGLE_SCAN, none), (.JPGD_UNSUPPORTED_COLORSPACE, none),
    (.JPGD_UNSUPPORTED_SAMP_FACTORS, none), (.JPGD_DECODE_ERROR, none),
    (.JPGD_BAD_RESTART_MARKER, none), (.JPGD_ASSERTION_ERROR, none),
    (.JPGD_BAD_SOS_SPECTRAL, none), (.JPGD_BAD_SOS_SUCCESSIVE, none),
    (.JPGD_STREAM_READ, none), (.JPGD_NOTENOUGHMEM, none)]

/-- The values of the enumerators of a C enum declaration: the initializer where
there is one, otherwise one more than the value `prev` of the enumerator before. -/
def enum_values {α : Type} : List (α × Option Int) → Int → List (α × Int)
  | [], _ => []
  | (e, some v) :: rest, _ => (e, v) :: enum_values rest v
  | (e, none) :: rest, prev => (e, prev + 1) :: enum_values rest (prev + 1)

/-- The enumerators of `jpgd_status` with their values (an enumerator without
initializer at the head of a declaration has the value 0). -/
def jpgd_status.values : List (jpgd_status × Int) := enum_values jpgd_status.declaration (-1)

/-- The integer value of a status. -/
def jpgd_status.value (s : jpgd_status) : Int := (jpgd_status.values.lookup s).getD 0

/-- All 36 enumerators, in declaration order. -/
def jpgd_status.all : List jpgd_status := jpgd_status.declaration.map Prod.fst

/-- The named error kinds: the enumerators from `JPGD_BAD_DHT_COUNTS` to
`JPGD_NOTENOUGHMEM`, in declaration order. -/
def jpgd_status.error_kinds : List jpgd_status :=
  [
    .JPGD_BAD_DHT_COUNTS, .JPGD_BAD_DHT_INDEX, .JPGD_BAD_DHT_MARKER, .JPGD_BAD_DQT_MARKER,
    .JPGD_BAD_DQT_TABLE, .JPGD_BAD_PRECISION, .JPGD_BAD_HEIGHT, .JPGD_BAD_WIDTH,
    .JPGD_TOO_MANY_COMPONENTS, .JPGD_BAD_SOF_LENGTH, .JPGD_BAD_VARIABLE_MARKER,
    .JPGD_BAD_DRI_LENGTH, .JPGD_BAD_SOS_LENGTH, .JPGD_BAD_SOS_COMP_ID,
    .JPGD_W_EXTRA_BYTES_BEFORE_MARKER, .JPGD_NO_ARITHMITIC_SUPPORT, .JPGD_UNEXPECTED_MARKER,
    .JPGD_NOT_JPEG, .JPGD_UNSUPPORTED_MARKER, .JPGD_BAD_DQT_LENGTH, .JPGD_TOO_MANY_BLOCKS,
    .JPGD_UNDEFINED_QUANT_TABLE, .JPGD_UNDEFINED_HUFF_TABLE, .JPGD_NOT_SINGLE_SCAN,
    .JPGD_UNSUPPORTED_COLORSPACE, .JPGD_UNSUPPORTED_SAMP_FACTORS, .JPGD_DECODE_ERROR,
    .JPGD_BAD_RESTART_MARKER, .JPGD_ASSERTION_ERROR, .JPGD_BAD_SOS_SPECTRAL,
    .JPGD_BAD_SOS_SUCCESSIVE, .JPGD_STREAM_READ, .JPGD_NOTENOUGHMEM]

/-- A status that denotes failure: `JPGD_FAILED` or one of the named error kinds. -/
def jpgd_status.denotes_failure (s : jpgd_status) : Prop :=
  s = .JPGD_FAILED ∨ s ∈ jpgd_status.error_kinds

instance (s : jpgd_status) : Decidable s.denotes_failure := by
  unfold jpgd_status.denotes_failure; infer_instance

end jpgd

namespace driver

/-! ## The command-line driver (`TGA to JPEG.cpp`) -/

open jpge

/-- Modelled from the spec: `EXIT_SUCCESS` of `<stdlib.h>`, which is not among the
source files; the specification states "Exit codes: 0 success, 1 failure". -/
def EXIT_SUCCESS : Int := 0

/-- Modelled from the spec: `EXIT_FAILURE` of `<stdlib.h>`, which is not among the
source files; the specification states "Exit codes: 0 success, 1 failure". -/
def EXIT_FAILURE : Int := 1

/-- `struct image_compare_results`. -/
structure image_compare_results where
  max_err : ℚ
  mean : ℚ
  mean_squared : ℚ
  root_mean_squared : ℚ
  peak_snr : ℚ
deriving DecidableEq

/-- `image_compare_results::image_compare_results()`: `memset(this, 0, sizeof(*this))`. -/
def image_compare_results.ctor : image_compare_results := ⟨0, 0, 0, 0, 0⟩

/-- A `const uint8 *`: the byte at each index relative to the pointer. -/
abbrev BytePtr := Int → uint8

/-- The pointer `p + n`. -/
def BytePtr.add (p : BytePtr) (n : Int) : BytePtr := fun k => p (n + k)

/-- `get_pixel(pDst, pSrc, luma_only, num_comps)`: the values stored in `pDst[0]`,
`pDst[1]` and `pDst[2]`. A `uint8` sample is promoted to `int`; `/` on `int` rounds
towards zero. -/
def get_pixel (pSrc : BytePtr) (luma_only : Bool) (num_comps : Int) : Int × Int × Int :=
  if num_comps = 1 then
    let v : Int := (pSrc 0).val
    (v, v, v)
  else if luma_only then
    let YR : Int := 19595
    let YG : Int := 38470
    let YB : Int := 7471
    let v : Int :=
      Int.tdiv ((pSrc 0).val * YR + (pSrc 1).val * YG + (pSrc 2).val * YB + 32768) 65536
    (v, v, v)
  else ((pSrc 0).val, (pSrc 1).val, (pSrc 2).val)

/-- The values of the `int` subexpressions of the luma expression of `get_pixel`
(line 82), in evaluation order, for the samples `r`, `g`, `b`. -/
def luma_intermediates (r g b : uint8) : List Int :=
  [(r.val : Int) * 19595, (g.val : Int) * 38470, (r.val : Int) * 19595 + (g.val : Int) * 38470,
    (b.val : Int) * 7471, (r.val : Int) * 19595 + (g.val : Int) * 38470 + (b.val : Int) * 7471,
    (r.val : Int) * 19595 + (g.val : Int) * 38470 + (b.val : Int) * 7471 + 32768]

/-- `labs`. -/
def labs (x : Int) : Int := if x < 0 then -x else x

/-- The element `p[c]` of an `int[3]`. -/
def channel (p : Int × Int × Int) (c : Nat) : Int :=
  match c with
  | 0 => p.1
  | 1 => p.2.1
  | _ => p.2.2

/-- `hist[i]++` on `double hist[256]`, held as the count at each index (a `double`
counts exactly up to 2^53): `none` when `i` is outside the array. -/
def hist_increment (hist : Int → Nat) (i : Int) : Option (Int → Nat) :=
  if 0 ≤ i ∧ i < 256 then some (Function.update hist i (hist i + 1)) else none

/-- The loop over the channels of one pixel pair (lines 104-105), with
`first_channel = 0` and `num_channels = 3`. -/
def image_compare_pixel (hist : Int → Nat) (a b : Int × Int × Int) : Option (Int → Nat) :=
  (List.range 3).foldlM
    (fun h c => hist_increment h (labs (channel a (0 + c) - channel b (0 + c)))) hist

/-- The result of an arithmetic operation on `int`: `none` when the value is outside
the range of the 32-bit `int` (signed overflow, undefined). -/
def int_result (v : Int) : Option Int := if isInt32 v then some v else none

/-- The offset `(y * width + x) * comps` of lines 102-103, evaluated in `int`. -/
def pixel_offset (y width x comps : Int) : Option Int :=
  (int_result (y * width)).bind fun yw =>
    (int_result (yw + x)).bind fun s => int_result (s * comps)

/-- The histogram that `image_compare` builds (lines 94-107): `none` when a pixel
offset overflows `int` or an increment falls outside `hist[256]`. -/
def image_compare_hist (width height : Int) (pComp_image : BytePtr) (comp_image_comps : Int)
    (pUncomp_image_data : BytePtr) (uncomp_comps : Int) (luma_only : Bool) :
    Option (Int → Nat) :=
  (List.range height.toNat).foldlM
    (fun h0 (y : Nat) =>
      (List.range width.toNat).foldlM
        (fun h (x : Nat) =>
          (pixel_offset (y : Int) width (x : Int) comp_image_comps).bind fun oa =>
            let a := get_pixel (pComp_image.add oa) luma_only comp_image_comps
            (pixel_offset (y : Int) width (x : Int) uncomp_comps).bind fun ob =>
              let b := get_pixel (pUncomp_image_data.add ob) luma_only uncomp_comps
              image_compare_pixel h a b)
        h0)
    (fun _ => 0)

/-- The locals `results.max_err`, `sum` and `sum2` of `image_compare` during the loop
over the histogram. -/
structure HistSums where
  max_err : ℚ
  sum : ℚ
  sum2 : ℚ

/-- The loop over the histogram (lines 109-120). -/
def image_compare_sums (hist : Int → Nat) : HistSums :=
  (List.range 256).foldl
    (fun acc (i : Nat) =>
      if hist (i : Int) = 0 then acc
      else
        let x : ℚ := (i : ℚ) * (hist (i : Int) : ℚ)
        { max_err := if (i : ℚ) > acc.max_err then (i : ℚ) else acc.max_err
          sum := acc.sum + x
          sum2 := acc.sum2 + (i : ℚ) * x })
    ⟨0, 0, 0⟩

/-- The value that `image_compare` stores in `results.max_err`; `none` when building
the histogram leaves `hist[256]`. Of the fields computed after it, `peak_snr` is
`image_compare_peak_snr`; `sqrt` is not part of the embedding. -/
def image_compare_max_err (width height : Int) (pComp_image : BytePtr) (comp_image_comps : Int)
    (pUncomp_image_data : BytePtr) (uncomp_comps : Int) (luma_only : Bool) : Option ℚ :=
  (image_compare_hist width height pComp_image comp_image_comps pUncomp_image_data uncomp_comps
    luma_only).map fun hist => (image_compare_sums hist).max_err

/-- The value `image_compare` stores in `results.peak_snr` from
`results.root_mean_squared`: `1e+10f` when that is zero, otherwise
`log10(255.0f / results.root_mean_squared) * 20.0f`. The library function `log10` is
a parameter. -/
def image_compare_peak_snr (log10 : ℚ → ℚ) (root_mean_squared : ℚ) : ℚ :=
  if root_mean_squared = 0 then 10000000000 else log10 (255 / root_mean_squared) * 20

/-- What the calls into the codec deliver in one iteration of the exhaustive test:
whether `compress_image_to_jpeg_file_in_memory` returned true, whether the
decompressor returned a non-null image, the decoded dimensions, and what
`image_compare` stored in `results`. -/
structure Outcome where
  compress_ok : Bool
  decompress_ok : Bool
  uncomp_width : Int
  uncomp_height : Int
  results : image_compare_results

/-- The local variables of `exhausive_compression_test` that live across iterations.
`visited` is a ghost variable: the combinations whose loop body was entered, oldest
first. -/
structure TestState where
  status : Int
  max_err : ℚ
  lowest_psnr : ℚ
  threshold_psnr : ℚ
  threshold_max_err : ℚ
  prev_results : image_compare_results
  visited : List (Nat × Nat × Nat)

/-- The locals as initialised before the loops (lines 137 and 155-160). -/
def TestState.init : TestState :=
  { status := EXIT_SUCCESS
    max_err := 0
    lowest_psnr := 9000000000
    threshold_psnr := 9000000000
    threshold_max_err := 0
    prev_results := image_compare_results.ctor
    visited := [] }

/-- The `params` built at the top of the loop body (lines 169-172). -/
def test_params (quality_factor subsampling optimize_huffman_tables : Nat) : params :=
  { params.ctor with
    m_quality := quality_factor
    m_subsampling := subsampling
    m_two_pass_flag := (optimize_huffman_tables != 0) }

/-- The `status = EXIT_FAILURE; goto failure;` exit of the loop body. -/
def goto_failure (st : TestState) : Except TestState TestState :=
  .error { st with status := EXIT_FAILURE }

/-- The body of the innermost loop (lines 168-229). `codec` gives the outcome of the
codec calls for the `params` of the iteration; `.error` is `goto failure`. -/
def test_body (codec : params → Outcome) (width height : Int)
    (quality_factor subsampling optimize_huffman_tables : Nat) (st0 : TestState) :
    Except TestState TestState :=
  let st := { st0 with
    visited := st0.visited ++ [(quality_factor, subsampling, optimize_huffman_tables)] }
  let out := codec (test_params quality_factor subsampling optimize_huffman_tables)
  if !out.compress_ok then goto_failure st
  else if !out.decompress_ok then goto_failure st
  else if out.uncomp_width ≠ width ∨ out.uncomp_height ≠ height then goto_failure st
  else
    let results := out.results
    let st := { st with
      max_err := if results.max_err > st.max_err then results.max_err else st.max_err
      lowest_psnr :=
        if results.peak_snr < st.lowest_psnr then results.peak_snr else st.lowest_psnr }
    if quality_factor = 1 then
      .ok { st with
        threshold_psnr :=
          if results.peak_snr < st.threshold_psnr then results.peak_snr
          else st.threshold_psnr
        threshold_max_err :=
          if results.max_err > st.threshold_max_err then results.max_err
          else st.threshold_max_err
        prev_results := results }
    else if results.peak_snr < st.threshold_psnr - 3 ∨ results.peak_snr < 6 then
      goto_failure st
    else if optimize_huffman_tables ≠ 0 ∧
        (st.prev_results.max_err ≠ results.max_err ∨
          st.prev_results.peak_snr ≠ results.peak_snr) then
      goto_failure st
    else
      .ok { st with prev_results := results }

/-- A C `for` loop that takes the values `xs` in turn and whose body can leave all
enclosing loops through `goto failure` (`.error`). -/
def for_loop {α : Type} (xs : List α) (body : α → TestState → Except TestState TestState)
    (st : TestState) : Except TestState TestState :=
  match xs with
  | [] => .ok st
  | x :: rest =>
    match body x st with
    | .ok st1 => for_loop rest body st1
    | .error st1 => .error st1

/-- The three nested loops (lines 162-232): `quality_factor` from 1 to 100,
`subsampling` from 0 to `H2V2`, `optimize_huffman_tables` from 0 to 1. -/
def test_loops (codec : params → Outcome) (width height : Int) (st : TestState) :
    Except TestState TestState :=
  for_loop (List.range' 1 100) (fun quality_factor =>
    for_loop (List.range' 0 4) (fun subsampling =>
      for_loop (List.range' 0 2) (fun optimize_huffman_tables =>
        test_body codec width height quality_factor subsampling optimize_huffman_tables))) st

/-- The state in which control reaches the label `failure:`, whether by `goto` or by
falling out of the loops. -/
def at_failure_label : Except TestState TestState → TestState
  | .ok st => st
  | .error st => st

/-- The loaded source image: what `stbi_load` stores in `width`, `height` and
`actual_comps` (the pixel data only ever reaches the codec). -/
structure LoadedImage where
  width : Int
  height : Int
  actual_comps : Int
deriving DecidableEq

/-- A C string: its characters before the terminating NUL. -/
abbrev CStr := List Char

/-- The functions the driver calls that are not part of the source files (image
loader, encoder, decoder, C file API). A file name is `none` when the driver read
it from `ppArgs` at an index with no argument. Each field is one call site:
* `stbi_load`: `stbi_load(pSrc_filename, ...)`, `none` for a null result;
* `test_codec use_jpgd image params`: the compress, decompress and compare calls
  of one iteration of the exhaustive test;
* `jpgd_decompress_file`: the call in `test_jpgd`;
* `stbi_write_tga`: the call in `test_jpgd`, true for a non-zero result;
* `compress_to_memory`, `fopen_ok`, `fwrite_ok`, `fclose_ok`, `compress_to_file`:
  the calls of the two compression branches of `main`, true for success;
* `decompress_file use_jpgd name`: the reload of the written file in `main`. -/
structure World where
  stbi_load : Option CStr → Option LoadedImage
  test_codec : Bool → LoadedImage → params → Outcome
  jpgd_decompress_file : Option CStr → Option LoadedImage
  stbi_write_tga : Option CStr → LoadedImage → Bool
  compress_to_memory : LoadedImage → params → Bool
  fopen_ok : Option CStr → Bool
  fwrite_ok : Bool
  fclose_ok : Bool
  compress_to_file : Option CStr → LoadedImage → params → Bool
  decompress_file : Bool → Option CStr → Option LoadedImage

/-- The locals of `exhausive_compression_test` when it returns. -/
def exhausive_compression_test_state (w : World) (pSrc_filename : Option CStr)
    (use_jpgd : Bool) : TestState :=
  match w.stbi_load pSrc_filename with
  | none => { TestState.init with status := EXIT_FAILURE }
  | some img =>
    at_failure_label
      (test_loops (w.test_codec use_jpgd img) img.width img.height TestState.init)

/-- `exhausive_compression_test(pSrc_filename, use_jpgd)`. -/
def exhausive_compression_test (w : World) (pSrc_filename : Option CStr)
    (use_jpgd : Bool) : Int :=
  (exhausive_compression_test_state w pSrc_filename use_jpgd).status

/-- `print_usage()`. -/
def print_usage : Int := EXIT_FAILURE

/-- `test_jpgd(pSrc_filename, pDst_filename)`. -/
def test_jpgd (w : World) (pSrc_filename pDst_filename : Option CStr) : Int :=
  match w.jpgd_decompress_file pSrc_filename with
  | none => EXIT_FAILURE
  | some img =>
    if !w.stbi_write_tga pDst_filename img then EXIT_FAILURE
    else EXIT_SUCCESS

/-- The character `s[k]` of a C string; at `k = length` this is the terminating NUL. -/
def CStr.at (s : CStr) (k : Nat) : Char := s.getD k (Char.ofNat 0)

/-- `tolower` in the C locale. -/
def tolower (c : Char) : Char := c.toLower

/-- `strcasecmp(a, b) == 0`. -/
def strcasecmp_eq (a b : CStr) : Bool := a.map tolower == b.map tolower

/-- The locals of `main` that option parsing sets, and `s_log_filename`. `reads` is
a ghost variable: the indices at which `ppArgs` has been read, oldest first. -/
structure Options where
  run_exhausive_test : Bool
  test_memory_compression : Bool
  optimize_huffman_tables : Bool
  subsampling : Int
  output_filename : CStr
  use_jpgd : Bool
  test_jpgd_decompression : Bool
  s_log_filename : CStr
  arg_index : Nat
  reads : List Nat

/-- The locals as initialised at the top of `main` (lines 280-288). -/
def Options.init : Options :=
  { run_exhausive_test := false
    test_memory_compression := false
    optimize_huffman_tables := false
    subsampling := -1
    output_filename := []
    use_jpgd := true
    test_jpgd_decompression := false
    s_log_filename := []
    arg_index := 1
    reads := [] }

/-- `strcpy(d, s)` for a destination `char d[size]` (line 11 defines
`strcpy_s(d, c, s)` as `strcpy(d, s)`): the string stored in `d`; `none` when `s`
and its terminating NUL do not fit, where the copy writes past the array and the
behaviour is undefined. -/
def strcpy (size : Nat) (s : CStr) : Option CStr :=
  if s.length < size then some s else none

/-- The ways in which the `switch` of the option loop ends the normal run of `main`. -/
inductive SwitchExit where
  /-- Lines 314, 327, 342: `return EXIT_FAILURE`. -/
  | invalid_option
  /-- Lines 297, 332: the name after `-g` or `-w` does not fit the 256-byte array. -/
  | strcpy_overflow
deriving DecidableEq, Repr

/-- The `switch (tolower(ppArgs[arg_index][1]))` of the option loop (lines 291-343)
for the argument `a`. The names of `-g` and `-w` are copied to `s_log_filename[256]`
(line 26) and `output_filename[256]` (line 284). -/
def parse_switch (a : CStr) (o : Options) : Except SwitchExit Options :=
  match tolower (a.at 1) with
  | 'd' => .ok { o with test_jpgd_decompression := true }
  | 'g' =>
    match strcpy 256 (a.drop 2) with
    | some s => .ok { o with s_log_filename := s }
    | none => .error .strcpy_overflow
  | 'x' => .ok { o with run_exhausive_test := true }
  | 'm' => .ok { o with test_memory_compression := true }
  | 'o' => .ok { o with optimize_huffman_tables := true }
  | 'l' =>
    if strcasecmp_eq (a.drop 1) ['l', 'u', 'm', 'a'] then .ok { o with subsampling := Y_ONLY }
    else .error .invalid_option
  | 'h' =>
    if strcasecmp_eq (a.drop 1) ['h', '1', 'v', '1'] then .ok { o with subsampling := H1V1 }
    else if strcasecmp_eq (a.drop 1) ['h', '2', 'v', '1'] then
      .ok { o with subsampling := H2V1 }
    else if strcasecmp_eq (a.drop 1) ['h', '2', 'v', '2'] then
      .ok { o with subsampling := H2V2 }
    else .error .invalid_option
  | 'w' =>
    match strcpy 256 (a.drop 2) with
    | some s => .ok { o with output_filename := s }
    | none => .error .strcpy_overflow
  | 's' => .ok { o with use_jpgd := false }
  | _ => .error .invalid_option

/-- The option loop (lines 289-345), run on the arguments from `ppArgs[arg_index]`
on; `.error` is an exit from inside the `switch`, with the locals at that point. -/
def parse_loop (rest : List CStr) (o : Options) : Except (SwitchExit × Options) Options :=
  match rest with
  | [] => .ok o
  | a :: rest1 =>
    let o1 := { o with reads := o.reads ++ [o.arg_index] }
    if a.at 0 ≠ '-' then .ok o1
    else
      match parse_switch a o1 with
      | .error e => .error (e, o1)
      | .ok o2 => parse_loop rest1 { o2 with arg_index := o2.arg_index + 1 }

/-- The `return` statement through which `main` leaves, or the statement at which
its behaviour stops being defined. -/
inductive ReturnSite where
  /-- Lines 314, 327, 342: an option the switch rejects. -/
  | invalid_option
  /-- Lines 297, 332: not a `return`. The copy of the name after `-g` or `-w` writes
  past the 256-byte array; what `main` does from there on is undefined. -/
  | strcpy_overflow
  /-- Line 352: `-x` without a source file. -/
  | usage_exhaustive
  /-- Line 356: the result of `exhausive_compression_test`. -/
  | exhaustive
  /-- Line 363: `-d` without two files. -/
  | usage_decompress
  /-- Line 368: the result of `test_jpgd`. -/
  | decompress
  /-- Line 382: `quality_factor` out of range. -/
  | quality_out_of_range
  /-- Line 391: the source image did not load. -/
  | load_failed
  /-- Line 416: compression to memory failed. -/
  | memory_compress_failed
  /-- Line 424: `fopen` failed. -/
  | fopen_failed
  /-- Line 430: `fwrite` failed. -/
  | fwrite_failed
  /-- Line 436: `fclose` failed. -/
  | fclose_failed
  /-- Line 446: compression to a file failed. -/
  | file_compress_failed
  /-- Line 465: the written file did not load. -/
  | reload_failed
  /-- Line 476: the reloaded image has another resolution. -/
  | resolution_differs
  /-- Line 485. -/
  | success
deriving DecidableEq, Repr

/-- What a run of `main` did: the value returned (`none` when `main` stops at
`strcpy_overflow` and returns no defined value), the `return` statement taken, the
`params` handed to the encoder (if it was called), and, as a ghost value, the
indices at which `ppArgs` was read. -/
structure MainResult where
  code : Option Int
  site : ReturnSite
  encoder_params : Option params
  reads : List Nat

/-- Lines 452-485 of `main`: reload the written file and compare resolutions. The
results of `stbi_write_tga` (line 471) and of `image_compare` (line 481) are not
used. -/
def main_reload (w : World) (o : Options) (pDst_filename : Option CStr) (img : LoadedImage)
    (params : params) (reads : List Nat) : MainResult :=
  match w.decompress_file o.use_jpgd pDst_filename with
  | none => ⟨some EXIT_FAILURE, .reload_failed, some params, reads⟩
  | some uncomp =>
    if uncomp.width ≠ img.width ∨ uncomp.height ≠ img.height then
      ⟨some EXIT_FAILURE, .resolution_differs, some params, reads⟩
    else ⟨some EXIT_SUCCESS, .success, some params, reads⟩

/-- Lines 396-399 of `main`: the `params` handed to the encoder. -/
def main_params (quality_factor : Int) (o : Options) (img : LoadedImage) : params :=
  { params.ctor with
    m_quality := quality_factor
    m_subsampling :=
      if o.subsampling < 0 then (if img.actual_comps = 1 then Y_ONLY else H2V2)
      else o.subsampling
    m_two_pass_flag := o.optimize_huffman_tables }

/-- Lines 372-485 of `main`: the default (encode) mode. The test
`(arg_c - arg_index) == 2` of line 372 has an empty body, so both file names are
read whatever the number of arguments is. -/
def main_encode (w : World) (ppArgs : List CStr) (o : Options) : MainResult :=
  let pSrc_filename := ppArgs.get? o.arg_index
  let pDst_filename := ppArgs.get? (o.arg_index + 1)
  let reads := o.reads ++ [o.arg_index, o.arg_index + 1]
  let quality_factor : Int := 75
  if quality_factor < 1 ∨ quality_factor > 100 then
    ⟨some EXIT_FAILURE, .quality_out_of_range, none, reads⟩
  else
    match w.stbi_load pSrc_filename with
    | none => ⟨some EXIT_FAILURE, .load_failed, none, reads⟩
    | some img =>
      let params := main_params quality_factor o img
      if o.test_memory_compression then
        if !w.compress_to_memory img params then
          ⟨some EXIT_FAILURE, .memory_compress_failed, some params, reads⟩
        else if !w.fopen_ok pDst_filename then
          ⟨some EXIT_FAILURE, .fopen_failed, some params, reads⟩
        else if !w.fwrite_ok then ⟨some EXIT_FAILURE, .fwrite_failed, some params, reads⟩
        else if !w.fclose_ok then ⟨some EXIT_FAILURE, .fclose_failed, some params, reads⟩
        else main_reload w o pDst_filename img params reads
      else if !w.compress_to_file pDst_filename img params then
        ⟨some EXIT_FAILURE, .file_compress_failed, some params, reads⟩
      else main_reload w o pDst_filename img params reads

/-- Lines 347-485 of `main`: the three modes, entered with the locals `o` that the
option loop leaves. -/
def main_modes (w : World) (ppArgs : List CStr) (o : Options) : MainResult :=
  let arg_c : Int := ppArgs.length
  if o.run_exhausive_test then
    if arg_c - o.arg_index < 1 then ⟨some print_usage, .usage_exhaustive, none, o.reads⟩
    else
      ⟨some (exhausive_compression_test w (ppArgs.get? o.arg_index) o.use_jpgd), .exhaustive,
        none, o.reads ++ [o.arg_index]⟩
  else if o.test_jpgd_decompression then
    if arg_c - o.arg_index < 2 then ⟨some print_usage, .usage_decompress, none, o.reads⟩
    else
      ⟨some (test_jpgd w (ppArgs.get? o.arg_index) (ppArgs.get? (o.arg_index + 1))),
        .decompress, none, o.reads ++ [o.arg_index, o.arg_index + 1]⟩
  else main_encode w ppArgs o

/-- `main(arg_c, ppArgs)` with `arg_c = ppArgs.length`. -/
def main (w : World) (ppArgs : List CStr) : MainResult :=
  match parse_loop (ppArgs.drop 1) Options.init with
  | .error (.invalid_option, o) => ⟨some EXIT_FAILURE, .invalid_option, none, o.reads⟩
  | .error (.strcpy_overflow, o) => ⟨none, .strcpy_overflow, none, o.reads⟩
  | .ok o => main_modes w ppArgs o

/-! ### Vocabulary for statements about the exhaustive test -/

/-- The 800 combinations `(quality_factor, subsampling, optimize_huffman_tables)` in
the order quality 1..100 (outer), subsampling 0..3, optimize 0..1 (inner). -/
def all_combinations : List (Nat × Nat × Nat) :=
  (List.range' 1 100).flatMap fun q =>
    (List.range' 0 4).flatMap fun s => (List.range' 0 2).map fun o => (q, s, o)

/-- The eight quality-1 combinations (4 subsamplings x 2 optimize settings). -/
def quality_1_combinations : List (Nat × Nat × Nat) :=
  [(1, 0, 0), (1, 0, 1), (1, 1, 0), (1, 1, 1), (1, 2, 0), (1, 2, 1), (1, 3, 0), (1, 3, 1)]

/-- The 792 combinations of quality 2..100, in loop order. -/
def later_combinations : List (Nat × Nat × Nat) :=
  (List.range' 2 99).flatMap fun q =>
    (List.range' 0 4).flatMap fun s => (List.range' 0 2).map fun o => (q, s, o)

/-- What `image_compare` measured in the run of combination `c`. -/
def results_of (codec : params → Outcome) (c : Nat × Nat × Nat) : image_compare_results :=
  (codec (test_params c.1 c.2.1 c.2.2)).results

/-- The PSNR measured in the run of combination `c`. -/
def psnr_of (codec : params → Outcome) (c : Nat × Nat × Nat) : ℚ :=
  (results_of codec c).peak_snr

/-- The minimum PSNR over the eight quality-1 runs. -/
def min_quality_1_psnr (codec : params → Outcome) : ℚ :=
  (quality_1_combinations.tail.map (psnr_of codec)).foldl min (psnr_of codec (1, 0, 0))

/-- The minimum of 9e9, the initial value of `threshold_psnr`, and the PSNR of the
eight quality-1 runs. -/
def psnr_threshold (codec : params → Outcome) : ℚ :=
  min 9000000000 (min_quality_1_psnr codec)

/-- Combination `c` compresses, decompresses, and decodes to the source's size. -/
def codec_checks_pass (codec : params → Outcome) (width height : Int)
    (c : Nat × Nat × Nat) : Prop :=
  (codec (test_params c.1 c.2.1 c.2.2)).compress_ok = true ∧
  (codec (test_params c.1 c.2.1 c.2.2)).decompress_ok = true ∧
  (codec (test_params c.1 c.2.1 c.2.2)).uncomp_width = width ∧
  (codec (test_params c.1 c.2.1 c.2.2)).uncomp_height = height

/-- Above quality 1, the PSNR of combination `c` is at least 6 and at least
`psnr_threshold - 3`. -/
def psnr_check_passes (codec : params → Outcome) (c : Nat × Nat × Nat) : Prop :=
  c.1 = 1 ∨ (psnr_threshold codec - 3 ≤ psnr_of codec c ∧ 6 ≤ psnr_of codec c)

/-- Above quality 1 and with optimize on, the run has the `max_err` and `peak_snr` of
the run with the same quality and subsampling and optimize off. -/
def equality_check_passes (codec : params → Outcome) (c : Nat × Nat × Nat) : Prop :=
  c.1 = 1 ∨ c.2.2 = 0 ∨
    ((results_of codec (c.1, c.2.1, 0)).max_err = (results_of codec c).max_err ∧
      (results_of codec (c.1, c.2.1, 0)).peak_snr = (results_of codec c).peak_snr)

/-- Combination `c` passes its encode, decode, dimension and PSNR/equality checks. -/
def combination_passes (codec : params → Outcome) (width height : Int)
    (c : Nat × Nat × Nat) : Prop :=
  codec_checks_pass codec width height c ∧ psnr_check_passes codec c ∧
    equality_check_passes codec c

instance (codec : params → Outcome) (width height : Int) :
    DecidablePred (combination_passes codec width height) := fun c => by
  unfold combination_passes codec_checks_pass psnr_check_passes equality_check_passes
  infer_instance

/-- The elements of a list up to and including the first that fails `p`. -/
def upto_first_failure {α : Type} (p : α → Prop) [DecidablePred p] : List α → List α
  | [] => []
  | x :: xs => if p x then x :: upto_first_failure p xs else [x]

/-- The value of `threshold_psnr` after the runs `pre`: 9e9 lowered by every
quality-1 run among them. -/
def threshold_after (codec : params → Outcome) (pre : List (Nat × Nat × Nat)) : ℚ :=
  pre.foldl (fun t c =>
    if c.1 = 1 then (if psnr_of codec c < t then psnr_of codec c else t) else t) 9000000000

/-- The value of `prev_results` after the runs `pre`. -/
def results_after (codec : params → Outcome) (pre : List (Nat × Nat × Nat)) :
    image_compare_results :=
  match pre.getLast? with
  | none => image_compare_results.ctor
  | some c => results_of codec c

/-- The loop invariant of the exhaustive test after the runs `pre` all passed. -/
def TestInv (codec : params → Outcome) (pre : List (Nat × Nat × Nat)) (st : TestState) :
    Prop :=
  st.status = EXIT_SUCCESS ∧ st.visited = pre ∧
    st.threshold_psnr = threshold_after codec pre ∧
    st.prev_results = results_after codec pre

/-- The state at the label `failure:` when the last of the runs `pre` failed. -/
def TestFailed (pre : List (Nat × Nat × Nat)) (st : TestState) : Prop :=
  st.status = EXIT_FAILURE ∧ st.visited = pre

/-! ### Vocabulary for statements about `main` -/

/-- The argument starts with a dash. -/
def is_option (a : CStr) : Bool := a.at 0 == '-'

/-- The options of a command line: the arguments after the program name up to the
first one that does not start with a dash. -/
def leading_options (ppArgs : List CStr) : List CStr := (ppArgs.drop 1).takeWhile is_option

/-- The file arguments of a command line: what follows the options. -/
def file_arguments (ppArgs : List CStr) : List CStr := (ppArgs.drop 1).dropWhile is_option

/-- The letter of an option, in lower case: `x` for `-x` and for `-X`. -/
def option_letter (a : CStr) : Char := tolower (a.at 1)

/-- The subsampling mode an option names: `-luma`, `-h1v1`, `-h2v1`, `-h2v2` in any
mix of upper and lower case. -/
def named_subsampling (a : CStr) : Option Int :=
  if a.map tolower = ['-', 'l', 'u', 'm', 'a'] then some Y_ONLY
  else if a.map tolower = ['-', 'h', '1', 'v', '1'] then some H1V1
  else if a.map tolower = ['-', 'h', '2', 'v', '1'] then some H2V1
  else if a.map tolower = ['-', 'h', '2', 'v', '2'] then some H2V2
  else none

/-- The name that an option `-g` or `-w` carries fits, with its terminating NUL, the
256-byte array it is copied to; true of any other argument. -/
def name_fits (a : CStr) : Prop :=
  (option_letter a = 'g' ∨ option_letter a = 'w') → (a.drop 2).length < 256

instance (a : CStr) : Decidable (name_fits a) := by
  unfold name_fits; infer_instance

/-- The options `main` accepts: one whose letter is `d`, `g`, `x`, `m`, `o`, `w` or
`s`, or one that names a subsampling mode; the name of a `-g` or `-w` has to fit its
array. -/
def recognised_option (a : CStr) : Prop :=
  (option_letter a ∈ ['d', 'g', 'x', 'm', 'o', 'w', 's'] ∨
    (named_subsampling a).isSome = true) ∧ name_fits a

instance (a : CStr) : Decidable (recognised_option a) := by
  unfold recognised_option; infer_instance

/-- An option with the letter `c` is among `opts`. -/
def option_given (opts : List CStr) (c : Char) : Bool := opts.any fun a => option_letter a == c

/-- The subsampling mode named by the last option of `opts` that names one. -/
def last_named_subsampling (opts : List CStr) : Option Int :=
  (opts.filterMap named_subsampling).getLast?

/-- The locals `o1` are what the options `opts` make of the locals `o`. -/
def ParsedFrom (o : Options) (opts : List CStr) (o1 : Options) : Prop :=
  o1.arg_index = o.arg_index + opts.length ∧
  o1.run_exhausive_test = (o.run_exhausive_test || option_given opts 'x') ∧
  o1.test_jpgd_decompression = (o.test_jpgd_decompression || option_given opts 'd') ∧
  o1.test_memory_compression = (o.test_memory_compression || option_given opts 'm') ∧
  o1.optimize_huffman_tables = (o.optimize_huffman_tables || option_given opts 'o') ∧
  o1.use_jpgd = (o.use_jpgd && !option_given opts 's') ∧
  o1.subsampling = (last_named_subsampling opts).getD o.subsampling

/-! ### Concrete inputs used in examples -/

/-- The outcome of an iteration in which every codec call succeeds on a 4x4 image
and `image_compare` measures `max_err = 0` and the PSNR `p`. -/
def outcome_with_psnr (p : ℚ) : Outcome :=
  { compress_ok := true
    decompress_ok := true
    uncomp_width := 4
    uncomp_height := 4
    results := ⟨0, 0, 0, 0, p⟩ }

/-- A world in which every file loads as a 4x4 RGB image, every call of `main` and
`test_jpgd` into the codec and the file API succeeds, and the iterations of the
exhaustive test have the outcomes `codec`. -/
def world_with_codec (codec : params → Outcome) : World :=
  { stbi_load := fun _ => some ⟨4, 4, 3⟩
    test_codec := fun _ _ => codec
    jpgd_decompress_file := fun _ => some ⟨4, 4, 3⟩
    stbi_write_tga := fun _ _ => true
    compress_to_memory := fun _ _ => true
    fopen_ok := fun _ => true
    fwrite_ok := true
    fclose_ok := true
    compress_to_file := fun _ _ _ => true
    decompress_file := fun _ _ => some ⟨4, 4, 3⟩ }

/-- Every run measures the PSNR 40. -/
def codec_steady : params → Outcome := fun _ => outcome_with_psnr 40

/-- Every run reproduces the source exactly: `image_compare` finds no difference and
stores the PSNR 1e10. -/
def codec_lossless : params → Outcome := fun _ => outcome_with_psnr 10000000000

/-- Every run with Huffman optimisation measures the PSNR 31, every run without it
the PSNR 30. -/
def codec_optimize_differs : params → Outcome := fun p =>
  if p.m_two_pass_flag then outcome_with_psnr 31 else outcome_with_psnr 30

/-- The command line `jpge -LUMA -o -h2V1 in out`. -/
def args_two_modes : List CStr :=
  [['j', 'p', 'g', 'e'], ['-', 'L', 'U', 'M', 'A'], ['-', 'o'], ['-', 'h', '2', 'V', '1'],
    ['i', 'n'], ['o', 'u', 't']]

/-- The command line `jpge -x -d in`. -/
def args_exhaustive_and_decompress : List CStr :=
  [['j', 'p', 'g', 'e'], ['-', 'x'], ['-', 'd'], ['i', 'n']]

/-- The command line `jpge -lumas in out`. -/
def args_misspelt : List CStr :=
  [['j', 'p', 'g', 'e'], ['-', 'l', 'u', 'm', 'a', 's'], ['i', 'n'], ['o', 'u', 't']]


/-! ### Vocabulary for statements about `image_compare` -/

/-- The differences `|a[c] - b[c]|` of the `get_pixel` outputs, over all pixels of
the two images and the three channels, in the order of the loops. -/
def abs_differences (width height : Int) (pComp_image : BytePtr) (comp_image_comps : Int)
    (pUncomp_image_data : BytePtr) (uncomp_comps : Int) (luma_only : Bool) : List Int :=
  (List.range height.toNat).flatMap fun (y : Nat) =>
    (List.range width.toNat).flatMap fun (x : Nat) =>
      (List.range 3).map fun (c : Nat) =>
        |channel
            (get_pixel (pComp_image.add (((y : Int) * width + (x : Int)) * comp_image_comps))
              luma_only comp_image_comps) c -
          channel
            (get_pixel (pUncomp_image_data.add (((y : Int) * width + (x : Int)) * uncomp_comps))
              luma_only uncomp_comps) c|

/-- The image whose bytes are `bytes`, followed by zeros. -/
def image_of_bytes (bytes : List uint8) : BytePtr := fun k =>
  if 0 ≤ k then bytes.getD k.toNat 0 else 0

/-- The command line `jpge`, without arguments. -/
def args_none : List CStr := [['j', 'p', 'g', 'e']]

/-- The command line `jpge -x`, without a source file. -/
def args_exhaustive_no_file : List CStr := [['j', 'p', 'g', 'e'], ['-', 'x']]

/-- The command line `jpge -d in`, without a destination file. -/
def args_decompress_one_file : List CStr := [['j', 'p', 'g', 'e'], ['-', 'd'], ['i', 'n']]

end driver

/-! ## Theorems -/

namespace jpge

/-- C1: for a `params` whose stored subsampling fits an `int`, `check()` is true
exactly when `1 <= m_quality <= 100` and `m_subsampling` is one of `Y_ONLY`, `H1V1`,
`H2V1`, `H2V2`; a negative subsampling or one above 3 is rejected; and replacing the
two flags by any other values leaves the result unchanged. -/
theorem params_check_iff (p : params) (hs : isInt32 p.m_subsampling) :
    (p.check = true ↔
      (1 ≤ p.m_quality ∧ p.m_quality ≤ 100) ∧
      (p.m_subsampling = Y_ONLY ∨ p.m_subsampling = H1V1 ∨
        p.m_subsampling = H2V1 ∨ p.m_subsampling = H2V2)) ∧
    ((p.m_subsampling < 0 ∨ p.m_subsampling > 3) → p.check = false) ∧
    (∀ f g : Bool,
      params.check { p with m_no_chroma_discrim_flag := f, m_two_pass_flag := g } = p.check) := by
  obtain ⟨q, s, f0, g0⟩ := p
  simp only [isInt32] at hs
  have key : toUint s > toUint H2V2 ↔ (s < 0 ∨ s > 3) := by
    simp only [toUint, H2V2]
    omega
  refine ⟨?_, ?_, fun f g => rfl⟩
  · simp only [params.check, key]
    simp only [Y_ONLY, H1V1, H2V1, H2V2]
    constructor
    · intro h
      split_ifs at h with h1 h2
      omega
    · rintro ⟨hq, hsub⟩
      have h1 : ¬ (q < 1 ∨ q > 100) := by omega
      have h2 : ¬ (s < 0 ∨ s > 3) := by omega
      simp [h1, h2]
  · intro h
    simp only [params.check, key]
    by_cases h1 : q < 1 ∨ q > 100
    · simp [h1]
    · simp [h1, h]

/-- Witness for C1: the theorem at quality 50 with the out-of-range subsampling -1. -/
theorem params_check_iff_witness :
    isInt32 (-1) ∧ params.check ⟨50, -1, true, false⟩ = false :=
  ⟨by decide, (params_check_iff ⟨50, -1, true, false⟩ (by decide)).2.1 (Or.inl (by decide))⟩

/-- C2: a default-constructed `params` has quality 85 (the constructor's initializer,
not the default member initializer 75), subsampling `H2V2`, both flags false, and it
passes `check()`. -/
theorem params_ctor_default :
    params.ctor.m_quality = 85 ∧
    params.ctor.m_quality ≠ params.m_quality_member_default ∧
    params.ctor.m_subsampling = H2V2 ∧
    params.ctor.m_no_chroma_discrim_flag = false ∧
    params.ctor.m_two_pass_flag = false ∧
    params.ctor.check = true := by
  refine ⟨rfl, by decide, rfl, rfl, rfl, by decide⟩

/-- C3: `get_total_passes()` is 2 when `m_params.m_two_pass_flag` is set and 1
otherwise; so it is always 1 or 2, and two encoder states that agree on that flag
give the same number of passes whatever their other fields hold. -/
theorem get_total_passes_spec (e : jpeg_encoder) :
    (e.m_params.m_two_pass_flag = true → e.get_total_passes = 2) ∧
    (e.m_params.m_two_pass_flag = false → e.get_total_passes = 1) ∧
    (e.get_total_passes = 1 ∨ e.get_total_passes = 2) ∧
    (∀ e2 : jpeg_encoder, e2.m_params.m_two_pass_flag = e.m_params.m_two_pass_flag →
      e2.get_total_passes = e.get_total_passes) := by
  refine ⟨?_, ?_, ?_, ?_⟩
  · intro h; simp [jpeg_encoder.get_total_passes, h]
  · intro h; simp [jpeg_encoder.get_total_passes, h]
  · cases h : e.m_params.m_two_pass_flag <;> simp [jpeg_encoder.get_total_passes, h]
  · intro e2 h; simp [jpeg_encoder.get_total_passes, h]

/-- Witness for C3: an encoder state whose two-pass flag is set makes 2 passes. -/
theorem get_total_passes_spec_witness : encoder_example.get_total_passes = 2 :=
  (get_total_passes_spec encoder_example).1 rfl

end jpge

namespace jpgd

/-- C4: the decoder limits are the ones the specification states: 16384 for the
maximum width and height, an input window of 8192 bytes (8 KiB), 8 Huffman tables
(a table index is in range exactly when it is one of 0..7), and 4 for both the
frame and the scan component limits. -/
theorem decoder_limits :
    JPGD_MAX_WIDTH = 16384 ∧ JPGD_MAX_HEIGHT = 16384 ∧
    JPGD_MAX_WIDTH = JPGD_MAX_HEIGHT ∧
    JPGD_IN_BUF_SIZE = 8192 ∧ JPGD_IN_BUF_SIZE = 8 * 1024 ∧
    JPGD_MAX_HUFF_TABLES = 8 ∧ (∀ i : Nat, i < JPGD_MAX_HUFF_TABLES ↔ i ≤ 7) ∧
    JPGD_MAX_COMPONENTS = 4 ∧ JPGD_MAX_COMPS_IN_SCAN = 4 ∧
    JPGD_MAX_COMPONENTS = JPGD_MAX_COMPS_IN_SCAN := by
  refine ⟨rfl, rfl, rfl, rfl, rfl, rfl, ?_, rfl, rfl, rfl⟩
  intro i
  simp only [JPGD_MAX_HUFF_TABLES]
  omega

end jpgd

namespace driver
open jpge

/-! ### The loops of the exhaustive test -/

theorem for_loop_append {α : Type} (xs ys : List α)
    (body : α → TestState → Except TestState TestState) (st : TestState) :
    for_loop (xs ++ ys) body st =
      match for_loop xs body st with
      | .ok st1 => for_loop ys body st1
      | .error st1 => .error st1 := by
  induction xs generalizing st with
  | nil => simp [for_loop]
  | cons x xs ih =>
    simp only [List.cons_append, for_loop]
    cases body x st with
    | ok st1 => simpa using ih st1
    | error st1 => rfl

theorem for_loop_map {α β : Type} (f : α → β) (xs : List α)
    (body : β → TestState → Except TestState TestState) (st : TestState) :
    for_loop (xs.map f) body st = for_loop xs (fun x => body (f x)) st := by
  induction xs generalizing st with
  | nil => rfl
  | cons x xs ih =>
    simp only [List.map_cons, for_loop]
    cases body (f x) st with
    | ok st1 => simpa using ih st1
    | error st1 => rfl

theorem for_loop_flatMap {α β : Type} (f : α → List β) (xs : List α)
    (body : β → TestState → Except TestState TestState) (st : TestState) :
    for_loop (xs.flatMap f) body st = for_loop xs (fun x => for_loop (f x) body) st := by
  induction xs generalizing st with
  | nil => rfl
  | cons x xs ih =>
    rw [List.flatMap_cons, for_loop_append]
    simp only [for_loop]
    cases for_loop (f x) body st with
    | ok st1 => simpa using ih st1
    | error st1 => rfl

/-- The nested loops are one loop over `all_combinations`. -/
theorem test_loops_eq_flat (codec : params → Outcome) (width height : Int) (st : TestState) :
    test_loops codec width height st =
      for_loop all_combinations
        (fun c => test_body codec width height c.1 c.2.1 c.2.2) st := by
  unfold test_loops all_combinations
  rw [for_loop_flatMap]
  congr 1
  funext q st1
  rw [for_loop_flatMap]
  rfl

/-- A loop whose body keeps an invariant `I` on the runs made so far while the
elements satisfy `P`, and fails into `F` at the first element that does not. -/
theorem for_loop_inv {α : Type} (body : α → TestState → Except TestState TestState)
    (P : α → Prop) [DecidablePred P] (I F : List α → TestState → Prop) (L : List α)
    (step : ∀ pre x post, L = pre ++ x :: post → ∀ st, I pre st →
      (P x → ∃ st1, body x st = .ok st1 ∧ I (pre ++ [x]) st1) ∧
      (¬ P x → ∃ st1, body x st = .error st1 ∧ F (pre ++ [x]) st1)) :
    ∀ pre rest, L = pre ++ rest → ∀ st, I pre st →
      ((∀ x ∈ rest, P x) → ∃ st1, for_loop rest body st = .ok st1 ∧ I L st1) ∧
      ((¬ ∀ x ∈ rest, P x) →
        ∃ st1, for_loop rest body st = .error st1 ∧ F (pre ++ upto_first_failure P rest) st1) := by
  intro pre rest
  induction rest generalizing pre with
  | nil =>
    intro hL st hI
    refine ⟨fun _ => ⟨st, rfl, ?_⟩, fun h => absurd (by simp) h⟩
    simpa [hL] using hI
  | cons x rest ih =>
    intro hL st hI
    obtain ⟨hok, herr⟩ := step pre x rest hL st hI
    by_cases hx : P x
    · obtain ⟨st1, hb, hI1⟩ := hok hx
      have hL1 : L = (pre ++ [x]) ++ rest := by simp [hL]
      obtain ⟨ihok, iherr⟩ := ih (pre ++ [x]) hL1 st1 hI1
      constructor
      · intro hall
        obtain ⟨st2, h2, hI2⟩ := ihok (fun y hy => hall y (List.mem_cons_of_mem _ hy))
        exact ⟨st2, by simp [for_loop, hb, h2], hI2⟩
      · intro hnall
        have hn : ¬ ∀ y ∈ rest, P y := by
          intro h
          apply hnall
          intro y hy
          rcases List.mem_cons.1 hy with rfl | hy
          · exact hx
          · exact h y hy
        obtain ⟨st2, h2, hF2⟩ := iherr hn
        refine ⟨st2, by simp [for_loop, hb, h2], ?_⟩
        simpa [upto_first_failure, hx] using hF2
    · obtain ⟨st1, hb, hF1⟩ := herr hx
      constructor
      · intro hall
        exact absurd (hall x (List.mem_cons_self _ _)) hx
      · intro _
        refine ⟨st1, by simp [for_loop, hb], ?_⟩
        simpa [upto_first_failure, hx] using hF1

/-! ### The order of the combinations -/

theorem mem_all_combinations (c : Nat × Nat × Nat) :
    c ∈ all_combinations ↔ (1 ≤ c.1 ∧ c.1 ≤ 100) ∧ c.2.1 ≤ 3 ∧ c.2.2 ≤ 1 := by
  obtain ⟨q, s, o⟩ := c
  simp only [all_combinations, List.mem_flatMap, List.mem_map, List.mem_range', Prod.mk.injEq]
  constructor
  · rintro ⟨q1, ⟨i, hi, rfl⟩, s1, ⟨j, hj, rfl⟩, o1, ⟨k, hk, rfl⟩, rfl, rfl, rfl⟩
    omega
  · rintro ⟨⟨h1, h2⟩, h3, h4⟩
    exact ⟨q, ⟨q - 1, by omega, by omega⟩, s, ⟨s, by omega, by omega⟩, o,
      ⟨o, by omega, by omega⟩, rfl, rfl, rfl⟩

set_option maxRecDepth 100000 in
theorem all_combinations_length : all_combinations.length = 800 := by
  rfl

set_option maxRecDepth 100000 in
/-- The runs come in pairs: optimize off, then optimize on. -/
theorem all_combinations_eq_pairs :
    all_combinations =
      ((List.range' 1 100).flatMap fun q => (List.range' 0 4).map fun s => (q, s)).flatMap
        fun p => [(p.1, p.2, 0), (p.1, p.2, 1)] := by
  rfl

set_option maxRecDepth 100000 in
/-- The quality-1 runs come first. -/
theorem all_combinations_eq_append :
    all_combinations = quality_1_combinations ++ later_combinations := by
  rfl

theorem getLast_before_optimize_on (ps : List (Nat × Nat)) :
    ∀ (pre post : List (Nat × Nat × Nat)) (q s o : Nat),
      pre ++ (q, s, o) :: post = ps.flatMap (fun p => [(p.1, p.2, 0), (p.1, p.2, 1)]) →
      o ≠ 0 → pre.getLast? = some (q, s, 0) := by
  induction ps with
  | nil =>
    intro pre post q s o h
    simp at h
  | cons p ps ih =>
    intro pre post q s o h ho
    rw [List.flatMap_cons] at h
    match pre, h with
    | [], h =>
      simp only [List.nil_append, List.cons_append, List.cons.injEq, Prod.mk.injEq] at h
      exact absurd h.1.2.2 ho
    | [a], h =>
      simp only [List.cons_append, List.nil_append, List.cons.injEq, Prod.mk.injEq] at h
      obtain ⟨ha, ⟨hq, hs, _⟩, _⟩ := h
      simp [ha, hq, hs]
    | a :: b :: pre2, h =>
      simp only [List.cons_append, List.nil_append, List.cons.injEq] at h
      obtain ⟨_, _, h2⟩ := h
      have := ih pre2 post q s o h2 ho
      cases pre2 with
      | nil => simp at this
      | cons c pre3 => simpa [List.getLast?_cons_cons] using this

theorem results_after_optimize_off (codec : params → Outcome)
    (pre post : List (Nat × Nat × Nat)) (q s o : Nat)
    (h : all_combinations = pre ++ (q, s, o) :: post) (ho : o ≠ 0) :
    results_after codec pre = results_of codec (q, s, 0) := by
  have := getLast_before_optimize_on _ pre post q s o
    (h.symm.trans all_combinations_eq_pairs) ho
  simp [results_after, this]

theorem threshold_after_append (codec : params → Outcome) (xs ys : List (Nat × Nat × Nat))
    (h : ∀ c ∈ ys, c.1 ≠ 1) : threshold_after codec (xs ++ ys) = threshold_after codec xs := by
  unfold threshold_after
  rw [List.foldl_append]
  generalize List.foldl _ _ xs = t
  induction ys generalizing t with
  | nil => rfl
  | cons y ys ih =>
    simp only [List.foldl_cons, h y (List.mem_cons_self _ _), if_false]
    exact ih (fun c hc => h c (List.mem_cons_of_mem _ hc)) t

theorem lower_eq_min (p t : ℚ) : (if p < t then p else t) = min t p := by
  rcases lt_or_le p t with h | h
  · simp [h, min_eq_right h.le]
  · simp [not_lt.2 h, min_eq_left h]

theorem threshold_after_quality_1 (codec : params → Outcome) :
    threshold_after codec quality_1_combinations = psnr_threshold codec := by
  simp only [threshold_after, quality_1_combinations, psnr_threshold, min_quality_1_psnr,
    List.foldl_cons, List.foldl_nil, List.tail_cons, List.map_cons, List.map_nil, if_true,
    lower_eq_min, min_assoc]

theorem threshold_after_later (codec : params → Outcome)
    (pre post : List (Nat × Nat × Nat)) (x : Nat × Nat × Nat)
    (h : all_combinations = pre ++ x :: post) (hq : x.1 ≠ 1) :
    threshold_after codec pre = psnr_threshold codec := by
  have h2 := all_combinations_eq_append ▸ h
  rcases List.append_eq_append_iff.1 h2 with ⟨a, hpre, hlater⟩ | ⟨c, hq1, hx⟩
  · rw [hpre, threshold_after_append, threshold_after_quality_1]
    intro c hc
    have hm : c ∈ later_combinations := by
      rw [hlater]; exact List.mem_append_left _ hc
    simp only [later_combinations, List.mem_flatMap, List.mem_map, List.mem_range'] at hm
    obtain ⟨q1, ⟨i, hi, rfl⟩, s1, _, o1, _, rfl⟩ := hm
    simp only
    omega
  · cases c with
    | nil =>
      simp only [List.append_nil] at hq1
      rw [← hq1, threshold_after_quality_1]
    | cons y c =>
      simp only [List.cons_append, List.cons.injEq] at hx
      have hmem : x ∈ quality_1_combinations := by
        rw [hq1, hx.1]; simp
      simp only [quality_1_combinations, List.mem_cons, List.mem_singleton] at hmem
      rcases hmem with rfl | rfl | rfl | rfl | rfl | rfl | rfl | rfl | hmem <;>
        first | exact absurd rfl hq | simp at hmem

/-! ### One iteration of the exhaustive test -/

theorem threshold_after_concat (codec : params → Outcome) (pre : List (Nat × Nat × Nat))
    (c : Nat × Nat × Nat) :
    threshold_after codec (pre ++ [c]) =
      if c.1 = 1 then
        (if psnr_of codec c < threshold_after codec pre then psnr_of codec c
          else threshold_after codec pre)
      else threshold_after codec pre := by
  simp [threshold_after, List.foldl_append]

theorem results_after_concat (codec : params → Outcome) (pre : List (Nat × Nat × Nat))
    (c : Nat × Nat × Nat) : results_after codec (pre ++ [c]) = results_of codec c := by
  simp [results_after]

/-- One loop body: from a state that satisfies the invariant, the body continues and
keeps the invariant when the combination passes, and leaves through `goto failure`
with `status = EXIT_FAILURE` when it does not. -/
theorem test_body_step (codec : params → Outcome) (width height : Int)
    (pre post : List (Nat × Nat × Nat)) (c : Nat × Nat × Nat)
    (hL : all_combinations = pre ++ c :: post) (st : TestState) (hI : TestInv codec pre st) :
    (combination_passes codec width height c →
      ∃ st1, test_body codec width height c.1 c.2.1 c.2.2 st = .ok st1 ∧
        TestInv codec (pre ++ [c]) st1) ∧
    (¬ combination_passes codec width height c →
      ∃ st1, test_body codec width height c.1 c.2.1 c.2.2 st = .error st1 ∧
        TestFailed (pre ++ [c]) st1) := by
  obtain ⟨q, s, o⟩ := c
  obtain ⟨hstat, hvis, hthr, hprev⟩ := hI
  have hT : q ≠ 1 → st.threshold_psnr = psnr_threshold codec := fun hq =>
    hthr.trans (threshold_after_later codec pre post (q, s, o) hL hq)
  have hP : o ≠ 0 → st.prev_results = results_of codec (q, s, 0) := fun ho =>
    hprev.trans (results_after_optimize_off codec pre post q s o hL ho)
  simp only [combination_passes, codec_checks_pass, psnr_check_passes, equality_check_passes,
    psnr_of, results_of]
  simp only [test_body, goto_failure]
  by_cases h1 : (codec (test_params q s o)).compress_ok = true
  swap
  · simp [h1, TestFailed, hvis, EXIT_FAILURE]
  by_cases h2 : (codec (test_params q s o)).decompress_ok = true
  swap
  · simp [h1, h2, TestFailed, hvis, EXIT_FAILURE]
  by_cases h3 : (codec (test_params q s o)).uncomp_width = width ∧
      (codec (test_params q s o)).uncomp_height = height
  swap
  · have h3b : (codec (test_params q s o)).uncomp_width ≠ width ∨
        (codec (test_params q s o)).uncomp_height ≠ height := by
      by_contra hc
      push_neg at hc
      exact h3 hc
    have h3c : ¬ ((codec (test_params q s o)).uncomp_width = width ∧
        (codec (test_params q s o)).uncomp_height = height ∧ True) := by simpa using h3
    simp only [h1, h2, Bool.not_true, Bool.false_eq_true, if_false, h3b, if_true]
    refine ⟨fun h => absurd ⟨h.1.2.2.1, h.1.2.2.2⟩ h3, fun _ => ⟨_, rfl, ?_⟩⟩
    simp [TestFailed, hvis, EXIT_FAILURE]
  have h3b : ¬ ((codec (test_params q s o)).uncomp_width ≠ width ∨
      (codec (test_params q s o)).uncomp_height ≠ height) := by
    push_neg
    exact h3
  simp only [h1, h2, Bool.not_true, Bool.false_eq_true, if_false, h3b]
  simp only [h3.1, h3.2, true_and]
  by_cases hq : q = 1
  · subst hq
    simp only [if_true, true_or, and_self, forall_true_left, not_true_eq_false, false_implies,
      and_true]
    refine ⟨_, rfl, ?_⟩
    simp [TestInv, hstat, hvis, threshold_after_concat, results_after_concat, hthr, psnr_of,
      results_of]
  simp only [hq, if_false, false_or]
  rw [hT hq]
  have hthr2 : psnr_threshold codec = threshold_after codec pre := (hT hq).symm.trans hthr
  by_cases h4 : (codec (test_params q s o)).results.peak_snr < psnr_threshold codec - 3 ∨
      (codec (test_params q s o)).results.peak_snr < 6
  · simp only [h4, if_true]
    refine ⟨fun h => ?_, fun _ => ⟨_, rfl, ?_⟩⟩
    · rcases h4 with h4 | h4
      · exact absurd h.1.1 (not_le.2 h4)
      · exact absurd h.1.2 (not_le.2 h4)
    · simp [TestFailed, hvis, EXIT_FAILURE]
  simp only [h4, if_false]
  have h4b : psnr_threshold codec - 3 ≤ (codec (test_params q s o)).results.peak_snr ∧
      6 ≤ (codec (test_params q s o)).results.peak_snr := by
    push_neg at h4
    exact h4
  simp only [h4b, and_self, true_and]
  by_cases ho : o = 0
  · subst ho
    simp only [ne_eq, not_true_eq_false, false_and, if_false, true_or, forall_true_left,
      not_true_eq_false, false_implies, and_true]
    refine ⟨_, rfl, ?_⟩
    simp [TestInv, hstat, hvis, threshold_after_concat, results_after_concat, hthr2, hq,
      results_of]
  simp only [ne_eq, ho, not_false_eq_true, true_and, false_or, hP ho, results_of]
  by_cases h5 : (codec (test_params q s 0)).results.max_err =
        (codec (test_params q s o)).results.max_err ∧
      (codec (test_params q s 0)).results.peak_snr =
        (codec (test_params q s o)).results.peak_snr
  · have h5b : ¬ ((codec (test_params q s 0)).results.max_err ≠
          (codec (test_params q s o)).results.max_err ∨
        (codec (test_params q s 0)).results.peak_snr ≠
          (codec (test_params q s o)).results.peak_snr) := by
      push_neg
      exact h5
    simp only [h5b, if_false, h5, and_self, forall_true_left, not_true_eq_false, false_implies,
      and_true]
    refine ⟨_, rfl, ?_⟩
    simp [TestInv, hstat, hvis, threshold_after_concat, results_after_concat, hthr2, hq,
      results_of]
  · have h5b : (codec (test_params q s 0)).results.max_err ≠
          (codec (test_params q s o)).results.max_err ∨
        (codec (test_params q s 0)).results.peak_snr ≠
          (codec (test_params q s o)).results.peak_snr := by
      by_contra hc
      push_neg at hc
      exact h5 hc
    simp only [h5b, if_true]
    refine ⟨fun h => absurd h h5, fun _ => ⟨_, rfl, ?_⟩⟩
    simp [TestFailed, hvis, EXIT_FAILURE]

/-! ### The exhaustive test as a whole -/

theorem upto_first_failure_of_all {α : Type} (P : α → Prop) [DecidablePred P] (xs : List α)
    (h : ∀ x ∈ xs, P x) : upto_first_failure P xs = xs := by
  induction xs with
  | nil => rfl
  | cons x xs ih =>
    simp only [upto_first_failure, h x (List.mem_cons_self _ _), if_true]
    rw [ih (fun y hy => h y (List.mem_cons_of_mem _ hy))]

theorem upto_first_failure_append {α : Type} (P : α → Prop) [DecidablePred P]
    (xs ys : List α) (y : α) (h : ∀ x ∈ xs, P x) (hy : ¬ P y) :
    upto_first_failure P (xs ++ y :: ys) = xs ++ [y] := by
  induction xs with
  | nil => simp [upto_first_failure, hy]
  | cons x xs ih =>
    have ih2 := ih (fun z hz => h z (List.mem_cons_of_mem _ hz))
    simp only [List.cons_append, upto_first_failure, h x (List.mem_cons_self _ _), if_true,
      List.cons.injEq, true_and]
    exact ih2

theorem testInv_init (codec : params → Outcome) : TestInv codec [] TestState.init := by
  simp [TestInv, TestState.init, threshold_after, results_after]

/-- The loops end normally, with the invariant, when every combination passes, and
otherwise leave through `goto failure` at the first combination that does not. -/
theorem test_loops_spec (codec : params → Outcome) (width height : Int) :
    ((∀ c ∈ all_combinations, combination_passes codec width height c) →
      ∃ st1, test_loops codec width height TestState.init = .ok st1 ∧
        TestInv codec all_combinations st1) ∧
    ((¬ ∀ c ∈ all_combinations, combination_passes codec width height c) →
      ∃ st1, test_loops codec width height TestState.init = .error st1 ∧
        TestFailed
          (upto_first_failure (combination_passes codec width height) all_combinations) st1) := by
  rw [test_loops_eq_flat]
  have h := for_loop_inv (fun c => test_body codec width height c.1 c.2.1 c.2.2)
    (combination_passes codec width height) (TestInv codec) TestFailed all_combinations
    (fun pre x post hL st hI => test_body_step codec width height pre post x hL st hI)
    [] all_combinations rfl TestState.init (testInv_init codec)
  simpa using h

theorem exit_codes_ne : EXIT_SUCCESS ≠ EXIT_FAILURE := by decide

/-- The state in which the test returns, when the source image loads. -/
theorem test_state_spec (w : World) (file : Option CStr) (use_jpgd : Bool) (img : LoadedImage)
    (hload : w.stbi_load file = some img) :
    ((∀ c ∈ all_combinations,
        combination_passes (w.test_codec use_jpgd img) img.width img.height c) →
      TestInv (w.test_codec use_jpgd img) all_combinations
        (exhausive_compression_test_state w file use_jpgd)) ∧
    ((¬ ∀ c ∈ all_combinations,
        combination_passes (w.test_codec use_jpgd img) img.width img.height c) →
      TestFailed
        (upto_first_failure
          (combination_passes (w.test_codec use_jpgd img) img.width img.height) all_combinations)
        (exhausive_compression_test_state w file use_jpgd)) := by
  obtain ⟨hok, herr⟩ := test_loops_spec (w.test_codec use_jpgd img) img.width img.height
  constructor
  · intro h
    obtain ⟨st1, h1, hI⟩ := hok h
    simpa [exhausive_compression_test_state, hload, h1, at_failure_label] using hI
  · intro h
    obtain ⟨st1, h1, hF⟩ := herr h
    simpa [exhausive_compression_test_state, hload, h1, at_failure_label] using hF

/-- The test returns `EXIT_SUCCESS` exactly when every combination passes. -/
theorem test_success_iff (w : World) (file : Option CStr) (use_jpgd : Bool) (img : LoadedImage)
    (hload : w.stbi_load file = some img) :
    exhausive_compression_test w file use_jpgd = EXIT_SUCCESS ↔
      ∀ c ∈ all_combinations,
        combination_passes (w.test_codec use_jpgd img) img.width img.height c := by
  obtain ⟨hok, herr⟩ := test_state_spec w file use_jpgd img hload
  unfold exhausive_compression_test
  constructor
  · intro h
    by_contra hn
    exact exit_codes_ne (h.symm.trans (herr hn).1)
  · intro h
    exact (hok h).1

/-- The test returns one of the two exit codes. -/
theorem test_exit_code (w : World) (file : Option CStr) (use_jpgd : Bool) :
    exhausive_compression_test w file use_jpgd = EXIT_SUCCESS ∨
      exhausive_compression_test w file use_jpgd = EXIT_FAILURE := by
  cases hload : w.stbi_load file with
  | none =>
    right
    simp [exhausive_compression_test, exhausive_compression_test_state, hload]
  | some img =>
    obtain ⟨hok, herr⟩ := test_state_spec w file use_jpgd img hload
    by_cases h : ∀ c ∈ all_combinations,
        combination_passes (w.test_codec use_jpgd img) img.width img.height c
    · exact Or.inl (hok h).1
    · exact Or.inr (herr h).1

theorem flatMap_get?_of_length {α β : Type} (f : α → List β) (k : Nat) (hk : 0 < k)
    (hf : ∀ x, (f x).length = k) (xs : List α) (i : Nat) :
    (xs.flatMap f).get? i = (xs.get? (i / k)).bind fun x => (f x).get? (i % k) := by
  induction xs generalizing i with
  | nil => simp
  | cons x xs ih =>
    rw [List.flatMap_cons]
    rcases Nat.lt_or_ge i k with hi | hi
    · have h0 : i / k = 0 := Nat.div_eq_of_lt hi
      have h1 : i % k = i := Nat.mod_eq_of_lt hi
      simp only [List.get?_eq_getElem?] at *
      rw [List.getElem?_append_left (by rw [hf]; exact hi), h0, h1]
      simp
    · obtain ⟨j, rfl⟩ : ∃ j, i = k + j := ⟨i - k, by omega⟩
      have h0 : (k + j) / k = j / k + 1 := by
        rw [Nat.add_comm, Nat.add_div_right _ hk]
      have h1 : (k + j) % k = j % k := by
        rw [Nat.add_comm, Nat.add_mod_right]
      simp only [List.get?_eq_getElem?] at *
      rw [List.getElem?_append_right (by rw [hf]; omega), hf, h0, h1]
      simpa using ih j

/-- The run number `i` (from 0) is the combination with quality `i / 8 + 1`,
subsampling `i % 8 / 2` and optimize `i % 2`. -/
theorem all_combinations_get (i : Nat) (h : i < 800) :
    all_combinations.get? i = some (i / 8 + 1, i % 8 / 2, i % 2) := by
  unfold all_combinations
  rw [flatMap_get?_of_length
    (fun q => (List.range' 0 4).flatMap fun s => (List.range' 0 2).map fun o => (q, s, o))
    8 (by decide) (fun q => rfl)]
  have hq : (List.range' 1 100).get? (i / 8) = some (i / 8 + 1) := by
    have hlt : i / 8 < 100 := by omega
    rw [List.get?_eq_getElem?, List.getElem?_eq_getElem (by simp; omega)]
    simp [Nat.add_comm]
  rw [hq]
  simp only [Option.some_bind]
  have hj : i % 8 < 8 := Nat.mod_lt _ (by decide)
  have h2 : i % 2 = i % 8 % 2 := by omega
  rw [h2]
  generalize i % 8 = j at hj
  generalize i / 8 + 1 = q
  interval_cases j <;> rfl

theorem mem_later_combinations (c : Nat × Nat × Nat) (h : c ∈ later_combinations) :
    c.1 ≠ 1 := by
  simp only [later_combinations, List.mem_flatMap, List.mem_map, List.mem_range'] at h
  obtain ⟨q1, ⟨i, hi, rfl⟩, s1, _, o1, _, rfl⟩ := h
  simp only
  omega

theorem threshold_after_all (codec : params → Outcome) :
    threshold_after codec all_combinations = psnr_threshold codec := by
  rw [all_combinations_eq_append,
    threshold_after_append codec _ _ (fun c hc => mem_later_combinations c hc),
    threshold_after_quality_1]

/-- The state after the eight quality-1 runs, when they all pass. -/
theorem quality_1_runs_spec (codec : params → Outcome) (width height : Int)
    (h : ∀ c ∈ quality_1_combinations, combination_passes codec width height c) :
    ∃ st1, for_loop quality_1_combinations
        (fun c => test_body codec width height c.1 c.2.1 c.2.2) TestState.init = .ok st1 ∧
      TestInv codec quality_1_combinations st1 := by
  have hstep := for_loop_inv (fun c => test_body codec width height c.1 c.2.1 c.2.2)
    (combination_passes codec width height) (TestInv codec) TestFailed quality_1_combinations
    (fun pre x post hL st hI =>
      test_body_step codec width height pre (post ++ later_combinations) x
        (by rw [all_combinations_eq_append, hL]; simp) st hI)
    [] quality_1_combinations rfl TestState.init (testInv_init codec)
  exact hstep.1 h

theorem min_quality_1_psnr_le (codec : params → Outcome) (c : Nat × Nat × Nat)
    (h : c ∈ quality_1_combinations) : min_quality_1_psnr codec ≤ psnr_of codec c := by
  simp only [quality_1_combinations, List.mem_cons, List.mem_singleton, List.mem_nil_iff,
    or_false] at h
  simp only [min_quality_1_psnr, quality_1_combinations, List.tail_cons, List.map_cons,
    List.map_nil, List.foldl_cons, List.foldl_nil]
  rcases h with rfl | rfl | rfl | rfl | rfl | rfl | rfl | rfl <;> simp [min_le_iff]

theorem min_quality_1_psnr_mem (codec : params → Outcome) :
    ∃ c ∈ quality_1_combinations, min_quality_1_psnr codec = psnr_of codec c := by
  have key : ∀ (l : List (Nat × Nat × Nat)) (c0 : Nat × Nat × Nat),
      ∃ c ∈ c0 :: l, (l.map (psnr_of codec)).foldl min (psnr_of codec c0) = psnr_of codec c := by
    intro l
    induction l using List.reverseRecOn with
    | nil => intro c0; exact ⟨c0, by simp, rfl⟩
    | append_singleton l x ih =>
      intro c0
      obtain ⟨c, hc, he⟩ := ih c0
      simp only [List.map_append, List.map_cons, List.map_nil, List.foldl_append,
        List.foldl_cons, List.foldl_nil]
      rcases min_choice ((l.map (psnr_of codec)).foldl min (psnr_of codec c0))
        (psnr_of codec x) with h | h
      · refine ⟨c, ?_, by rw [h, he]⟩
        rcases List.mem_cons.1 hc with rfl | hc
        · simp
        · simp [hc]
      · exact ⟨x, by simp, h⟩
  exact key _ _

/-! ### The concrete codecs -/

theorem codec_steady_passes (c : Nat × Nat × Nat) : combination_passes codec_steady 4 4 c := by
  have hT : psnr_threshold codec_steady = 40 := by
    simp [psnr_threshold, min_quality_1_psnr, quality_1_combinations, psnr_of, results_of,
      codec_steady, outcome_with_psnr]
    norm_num
  refine ⟨by simp [codec_checks_pass, codec_steady, outcome_with_psnr], Or.inr ?_,
    Or.inr (Or.inr ⟨rfl, rfl⟩)⟩
  rw [hT]
  simp only [psnr_of, results_of, codec_steady, outcome_with_psnr]
  norm_num

theorem peak_snr_cases (log10 : ℚ → ℚ) (hlog : ∀ x, log10 x < 309) (r : ℚ) :
    image_compare_peak_snr log10 r = 10000000000 ∨ image_compare_peak_snr log10 r < 6180 := by
  unfold image_compare_peak_snr
  split_ifs
  · exact Or.inl rfl
  · right
    have := hlog (255 / r)
    linarith

theorem codec_lossless_passes (c : Nat × Nat × Nat) :
    combination_passes codec_lossless 4 4 c := by
  have hT : psnr_threshold codec_lossless = 9000000000 := by
    simp [psnr_threshold, min_quality_1_psnr, quality_1_combinations, psnr_of, results_of,
      codec_lossless, outcome_with_psnr]
    norm_num
  refine ⟨by simp [codec_checks_pass, codec_lossless, outcome_with_psnr], Or.inr ?_,
    Or.inr (Or.inr ⟨rfl, rfl⟩)⟩
  rw [hT]
  simp only [psnr_of, results_of, codec_lossless, outcome_with_psnr]
  norm_num

theorem results_of_optimize_differs (c : Nat × Nat × Nat) :
    results_of codec_optimize_differs c =
      if c.2.2 = 0 then ⟨0, 0, 0, 0, 30⟩ else ⟨0, 0, 0, 0, 31⟩ := by
  simp only [results_of, codec_optimize_differs, test_params]
  by_cases h : c.2.2 = 0
  · simp [h, outcome_with_psnr]
  · simp [h, outcome_with_psnr]

theorem psnr_threshold_optimize_differs : psnr_threshold codec_optimize_differs = 30 := by
  simp [psnr_threshold, min_quality_1_psnr, quality_1_combinations, psnr_of,
    results_of_optimize_differs]
  norm_num

theorem codec_checks_optimize_differs (c : Nat × Nat × Nat) :
    codec_checks_pass codec_optimize_differs 4 4 c := by
  simp only [codec_checks_pass, codec_optimize_differs]
  split_ifs <;> simp [outcome_with_psnr]

theorem psnr_check_optimize_differs (c : Nat × Nat × Nat) :
    psnr_check_passes codec_optimize_differs c := by
  refine Or.inr ?_
  rw [psnr_threshold_optimize_differs]
  simp only [psnr_of, results_of_optimize_differs]
  split_ifs <;> norm_num

theorem optimize_differs_passes_off (c : Nat × Nat × Nat) (h : c.1 = 1 ∨ c.2.2 = 0) :
    combination_passes codec_optimize_differs 4 4 c := by
  refine ⟨codec_checks_optimize_differs c, psnr_check_optimize_differs c, ?_⟩
  rcases h with h | h
  · exact Or.inl h
  · exact Or.inr (Or.inl h)

theorem optimize_differs_fails_on : ¬ combination_passes codec_optimize_differs 4 4 (2, 0, 1) := by
  rintro ⟨_, _, h⟩
  simp [equality_check_passes, results_of_optimize_differs] at h

/-! ### Claims about the exhaustive test -/

/-- C5: when every PSNR of the test is a value that `image_compare` stores (1e10 for
a zero `root_mean_squared`, otherwise `log10(255 / root_mean_squared) * 20`, with a
`log10` that stays below 309 as it does on every finite double) and the test returns
`EXIT_SUCCESS`, then the source image was loaded and every combination of quality at
least 25 measured a PSNR of at least 6 and of at least T - 3, where T is the minimum
PSNR over the eight quality-1 runs. T is final when the first check is made: the
eight quality-1 runs come first, every later run has a quality of at least 2, and
`threshold_psnr`, which holds the smaller of T and its initial value 9e9 after the
eight runs, has the same value at return. -/
theorem psnr_bound_of_success (w : World) (file : Option CStr) (use_jpgd : Bool)
    (log10 : ℚ → ℚ) (hlog : ∀ x, log10 x < 309)
    (hcmp : ∀ img, w.stbi_load file = some img → ∀ c ∈ all_combinations,
      (results_of (w.test_codec use_jpgd img) c).peak_snr =
        image_compare_peak_snr log10
          (results_of (w.test_codec use_jpgd img) c).root_mean_squared)
    (hsucc : exhausive_compression_test w file use_jpgd = EXIT_SUCCESS) :
    ∃ img, w.stbi_load file = some img ∧
      (∀ c ∈ all_combinations, 25 ≤ c.1 →
        6 ≤ psnr_of (w.test_codec use_jpgd img) c ∧
        min_quality_1_psnr (w.test_codec use_jpgd img) - 3 ≤
          psnr_of (w.test_codec use_jpgd img) c) ∧
      (∀ c ∈ quality_1_combinations,
        min_quality_1_psnr (w.test_codec use_jpgd img) ≤ psnr_of (w.test_codec use_jpgd img) c) ∧
      (∃ c ∈ quality_1_combinations,
        min_quality_1_psnr (w.test_codec use_jpgd img) = psnr_of (w.test_codec use_jpgd img) c) ∧
      (∃ st1,
        for_loop quality_1_combinations
          (fun c => test_body (w.test_codec use_jpgd img) img.width img.height c.1 c.2.1 c.2.2)
          TestState.init = .ok st1 ∧
        test_loops (w.test_codec use_jpgd img) img.width img.height TestState.init =
          for_loop later_combinations
            (fun c => test_body (w.test_codec use_jpgd img) img.width img.height c.1 c.2.1 c.2.2)
            st1 ∧
        (∀ c ∈ later_combinations, 2 ≤ c.1) ∧
        st1.threshold_psnr = min 9000000000 (min_quality_1_psnr (w.test_codec use_jpgd img)) ∧
        (exhausive_compression_test_state w file use_jpgd).threshold_psnr =
          st1.threshold_psnr) := by
  cases hload : w.stbi_load file with
  | none =>
    exfalso
    unfold exhausive_compression_test exhausive_compression_test_state at hsucc
    rw [hload] at hsucc
    simp [EXIT_SUCCESS, EXIT_FAILURE] at hsucc
  | some img =>
    have hall := (test_success_iff w file use_jpgd img hload).1 hsucc
    have hval : ∀ c ∈ all_combinations,
        psnr_of (w.test_codec use_jpgd img) c = 10000000000 ∨
          psnr_of (w.test_codec use_jpgd img) c < 6180 := by
      intro c hc
      unfold psnr_of
      rw [hcmp img hload c hc]
      exact peak_snr_cases log10 hlog _
    refine ⟨img, rfl, ?_, min_quality_1_psnr_le _, min_quality_1_psnr_mem _, ?_⟩
    · intro c hc hq
      obtain ⟨_, hp, _⟩ := hall c hc
      rcases hp with h1 | ⟨h3, h6⟩
      · omega
      · refine ⟨h6, ?_⟩
        obtain ⟨c1, hc1, hmin⟩ := min_quality_1_psnr_mem (w.test_codec use_jpgd img)
        have hc1all : c1 ∈ all_combinations := by
          rw [all_combinations_eq_append]
          exact List.mem_append_left _ hc1
        unfold psnr_threshold at h3
        rcases hval c1 hc1all with e1 | l1
        · rcases hval c hc with e | l
          · rw [hmin, e1, e]
            norm_num
          · rw [hmin, e1] at h3
            rw [min_eq_left (by norm_num)] at h3
            linarith
        · rw [min_eq_right (by rw [hmin]; linarith)] at h3
          exact h3
    · have hq1 : ∀ c ∈ quality_1_combinations,
          combination_passes (w.test_codec use_jpgd img) img.width img.height c := by
        intro c hc
        apply hall
        rw [all_combinations_eq_append]
        exact List.mem_append_left _ hc
      obtain ⟨st1, h1, hI⟩ := quality_1_runs_spec _ img.width img.height hq1
      have hI2 := (test_state_spec w file use_jpgd img hload).1 hall
      refine ⟨st1, h1, ?_, ?_, ?_, ?_⟩
      · rw [test_loops_eq_flat, all_combinations_eq_append, for_loop_append, h1]
      · intro c hc
        simp only [later_combinations, List.mem_flatMap, List.mem_map, List.mem_range'] at hc
        obtain ⟨q1, ⟨i, hi, rfl⟩, s1, _, o1, _, rfl⟩ := hc
        simp only
        omega
      · rw [hI.2.2.1, threshold_after_quality_1]
        rfl
      · rw [hI2.2.2.1, threshold_after_all, hI.2.2.1, threshold_after_quality_1]

/-- Witness for C5: a test in which every run reproduces the source exactly (PSNR
1e10) succeeds, and then the run of quality 25 has a PSNR of at least T - 3. -/
theorem psnr_bound_of_success_witness :
    ∃ img, (world_with_codec codec_lossless).stbi_load (some ['s']) = some img ∧
      min_quality_1_psnr ((world_with_codec codec_lossless).test_codec true img) - 3 ≤
        psnr_of ((world_with_codec codec_lossless).test_codec true img) (25, 0, 0) := by
  obtain ⟨img, h, hb, _⟩   := psnr_bound_of_success (world_with_codec codec_lossless) (some ['s'])
    true (fun _ => 0) (fun _ => by norm_num) (fun _ _ _ _ => rfl)
    ((test_success_iff (world_with_codec codec_lossless) (some ['s']) true ⟨4, 4, 3⟩ rfl).2
      (fun c _ => codec_lossless_passes c))
  exact ⟨img, h, (hb (25, 0, 0) ((mem_all_combinations (25, 0, 0)).2 (by decide)) (by decide)).2⟩

/-- C6, as stated, fails: with runs whose result depends on the optimize setting
only, any two runs made with optimize on give identical results, and the run
(2, 0, 1) passes its codec and PSNR checks; yet the test returns `EXIT_FAILURE`, and
it does so in the run (2, 0, 1), the first run in which the determinism check is
made: the check compares with the run (2, 0, 0), made with optimize off. -/
theorem determinism_check_counterexample :
    (∀ q s q2 s2 : Nat,
      results_of codec_optimize_differs (q, s, 1) =
        results_of codec_optimize_differs (q2, s2, 1)) ∧
    codec_checks_pass codec_optimize_differs 4 4 (2, 0, 1) ∧
    psnr_check_passes codec_optimize_differs (2, 0, 1) ∧
    results_of codec_optimize_differs (2, 0, 0) ≠ results_of codec_optimize_differs (2, 0, 1) ∧
    exhausive_compression_test (world_with_codec codec_optimize_differs) (some ['s']) true
      = EXIT_FAILURE ∧
    (exhausive_compression_test_state (world_with_codec codec_optimize_differs) (some ['s'])
      true).visited = quality_1_combinations ++ [(2, 0, 0), (2, 0, 1)] := by
  have hnot : ¬ ∀ c ∈ all_combinations, combination_passes
      ((world_with_codec codec_optimize_differs).test_codec true ⟨4, 4, 3⟩)
      (LoadedImage.width ⟨4, 4, 3⟩) (LoadedImage.height ⟨4, 4, 3⟩) c := by
    intro h
    exact optimize_differs_fails_on (h (2, 0, 1) ((mem_all_combinations _).2 (by decide)))
  have hF := (test_state_spec (world_with_codec codec_optimize_differs) (some ['s']) true
    ⟨4, 4, 3⟩ rfl).2 hnot
  refine ⟨?_, codec_checks_optimize_differs _, psnr_check_optimize_differs _, ?_, hF.1, ?_⟩
  · intro q s q2 s2
    simp [results_of_optimize_differs]
  · simp [results_of_optimize_differs]
  · rw [hF.2]
    have hsplit : all_combinations =
        (quality_1_combinations ++ [(2, 0, 0)]) ++ (2, 0, 1) :: later_combinations.drop 2 := by
      rw [all_combinations_eq_append]
      rfl
    rw [hsplit]
    have hpre : ∀ x ∈ quality_1_combinations ++ [(2, 0, 0)],
        combination_passes codec_optimize_differs 4 4 x := by
      intro x hx
      apply optimize_differs_passes_off
      simp only [quality_1_combinations, List.cons_append, List.nil_append, List.mem_cons,
        List.mem_singleton, List.mem_nil_iff, or_false] at hx
      rcases hx with rfl | rfl | rfl | rfl | rfl | rfl | rfl | rfl | rfl <;> simp
    have := upto_first_failure_append (combination_passes codec_optimize_differs 4 4)
      (quality_1_combinations ++ [(2, 0, 0)]) (later_combinations.drop 2) (2, 0, 1) hpre
      optimize_differs_fails_on
    simpa [world_with_codec] using this

/-- C6, amended: when the source image loads, a test that returns `EXIT_SUCCESS` has,
for every quality 2..100 and every subsampling, the same `max_err` and `peak_snr` in
the run made with optimize on as in the run made just before it with the same
quality and subsampling and optimize off; and when every run passes its codec and
PSNR checks, the test returns `EXIT_SUCCESS` exactly when that holds. -/
theorem determinism_check_spec (w : World) (file : Option CStr) (use_jpgd : Bool)
    (img : LoadedImage) (hload : w.stbi_load file = some img) :
    (exhausive_compression_test w file use_jpgd = EXIT_SUCCESS →
      ∀ q s : Nat, 2 ≤ q → q ≤ 100 → s ≤ 3 →
        (results_of (w.test_codec use_jpgd img) (q, s, 0)).max_err =
          (results_of (w.test_codec use_jpgd img) (q, s, 1)).max_err ∧
        (results_of (w.test_codec use_jpgd img) (q, s, 0)).peak_snr =
          (results_of (w.test_codec use_jpgd img) (q, s, 1)).peak_snr) ∧
    ((∀ c ∈ all_combinations,
        codec_checks_pass (w.test_codec use_jpgd img) img.width img.height c ∧
        psnr_check_passes (w.test_codec use_jpgd img) c) →
      (exhausive_compression_test w file use_jpgd = EXIT_SUCCESS ↔
        ∀ q s : Nat, 2 ≤ q → q ≤ 100 → s ≤ 3 →
          (results_of (w.test_codec use_jpgd img) (q, s, 0)).max_err =
            (results_of (w.test_codec use_jpgd img) (q, s, 1)).max_err ∧
          (results_of (w.test_codec use_jpgd img) (q, s, 0)).peak_snr =
            (results_of (w.test_codec use_jpgd img) (q, s, 1)).peak_snr)) := by
  have key : (∀ c ∈ all_combinations,
        combination_passes (w.test_codec use_jpgd img) img.width img.height c) →
      ∀ q s : Nat, 2 ≤ q → q ≤ 100 → s ≤ 3 →
        (results_of (w.test_codec use_jpgd img) (q, s, 0)).max_err =
          (results_of (w.test_codec use_jpgd img) (q, s, 1)).max_err ∧
        (results_of (w.test_codec use_jpgd img) (q, s, 0)).peak_snr =
          (results_of (w.test_codec use_jpgd img) (q, s, 1)).peak_snr := by
    intro hall q s hq2 hq100 hs
    obtain ⟨_, _, he⟩ := hall (q, s, 1) ((mem_all_combinations _).2 ⟨⟨by omega, hq100⟩, hs, le_refl _⟩)
    rcases he with h | h | h
    · simp only at h; omega
    · simp at h
    · exact h
  refine ⟨fun h => key ((test_success_iff w file use_jpgd img hload).1 h), fun hchk => ?_⟩
  rw [test_success_iff w file use_jpgd img hload]
  refine ⟨key, fun hdet c hc => ?_⟩
  obtain ⟨h1, h2⟩ := hchk c hc
  refine ⟨h1, h2, ?_⟩
  obtain ⟨q, s, o⟩ := c
  obtain ⟨⟨hq1, hq100⟩, hs, ho⟩ := (mem_all_combinations _).1 hc
  simp only at hq1 hq100 hs ho
  by_cases hq : q = 1
  · exact Or.inl hq
  by_cases ho0 : o = 0
  · exact Or.inr (Or.inl ho0)
  have ho1 : o = 1 := by omega
  subst ho1
  exact Or.inr (Or.inr (hdet q s (by omega) hq100 hs))

/-- Witness for C6: in a test in which every run measures the PSNR 40 the source
loads and the runs (2, 0, 0) and (2, 0, 1) have the same PSNR. -/
theorem determinism_check_spec_witness :
    (results_of ((world_with_codec codec_steady).test_codec true ⟨4, 4, 3⟩) (2, 0, 0)).peak_snr =
      (results_of ((world_with_codec codec_steady).test_codec true ⟨4, 4, 3⟩) (2, 0, 1)).peak_snr :=
  ((determinism_check_spec (world_with_codec codec_steady) (some ['s']) true ⟨4, 4, 3⟩ rfl).1
    ((test_success_iff (world_with_codec codec_steady) (some ['s']) true ⟨4, 4, 3⟩ rfl).2
      (fun c _ => codec_steady_passes c)) 2 0 (by decide) (by decide) (by decide)).2

/-- C7: when the source image loads, the combinations are the 800 triples of a
quality 1..100, a subsampling 0..3 and an optimize setting 0..1, run number `i`
being quality `i / 8 + 1`, subsampling `i % 8 / 2`, optimize `i % 2`; the runs made
are those up to and including the first combination that fails its checks (all of
them when none fails); and the test returns `EXIT_SUCCESS` exactly when all 800
combinations pass, and `EXIT_FAILURE` otherwise. -/
theorem exhaustive_test_order_and_result (w : World) (file : Option CStr) (use_jpgd : Bool)
    (img : LoadedImage) (hload : w.stbi_load file = some img) :
    all_combinations.length = 800 ∧
    (∀ c, c ∈ all_combinations ↔ (1 ≤ c.1 ∧ c.1 ≤ 100) ∧ c.2.1 ≤ 3 ∧ c.2.2 ≤ 1) ∧
    (∀ i, i < 800 → all_combinations.get? i = some (i / 8 + 1, i % 8 / 2, i % 2)) ∧
    (exhausive_compression_test_state w file use_jpgd).visited =
      upto_first_failure
        (combination_passes (w.test_codec use_jpgd img) img.width img.height) all_combinations ∧
    (exhausive_compression_test w file use_jpgd = EXIT_SUCCESS ↔
      ∀ c ∈ all_combinations,
        combination_passes (w.test_codec use_jpgd img) img.width img.height c) ∧
    (exhausive_compression_test w file use_jpgd = EXIT_SUCCESS ∨
      exhausive_compression_test w file use_jpgd = EXIT_FAILURE) := by
  refine ⟨all_combinations_length, mem_all_combinations, all_combinations_get, ?_,
    test_success_iff w file use_jpgd img hload, test_exit_code w file use_jpgd⟩
  obtain ⟨hok, herr⟩ := test_state_spec w file use_jpgd img hload
  by_cases h : ∀ c ∈ all_combinations,
      combination_passes (w.test_codec use_jpgd img) img.width img.height c
  · rw [(hok h).2.1, upto_first_failure_of_all _ _ h]
  · exact (herr h).2

/-- Witness for C7: a test in which every run measures the PSNR 40 returns
`EXIT_SUCCESS`. -/
theorem exhaustive_test_order_and_result_witness :
    exhausive_compression_test (world_with_codec codec_steady) (some ['s']) true = EXIT_SUCCESS :=
  (exhaustive_test_order_and_result (world_with_codec codec_steady) (some ['s']) true
    ⟨4, 4, 3⟩ rfl).2.2.2.2.1.2 (fun c _ => codec_steady_passes c)

/-! ### Option parsing -/

theorem is_option_iff (a : CStr) : is_option a = true ↔ ∃ t, a = '-' :: t := by
  cases a with
  | nil => simp [is_option, CStr.at]
  | cons c t => simp [is_option, CStr.at]

theorem strcasecmp_eq_tail (t b : CStr) :
    strcasecmp_eq (List.drop 1 ('-' :: t)) b = true ↔
      List.map tolower ('-' :: t) = '-' :: b.map tolower := by
  simp only [strcasecmp_eq, List.drop_succ_cons, List.drop_zero, beq_iff_eq, List.map_cons,
    List.cons.injEq]
  constructor
  · intro h; exact ⟨by decide, h⟩
  · intro h; exact h.2

theorem named_subsampling_letter (t : CStr) (h : (named_subsampling ('-' :: t)).isSome = true) :
    option_letter ('-' :: t) = 'l' ∨ option_letter ('-' :: t) = 'h' := by
  unfold named_subsampling at h
  cases t with
  | nil => simp at h
  | cons c t =>
    simp only [option_letter, CStr.at, List.getD_cons_succ, List.getD_cons_zero]
    simp only [List.map_cons, List.cons.injEq] at h
    split_ifs at h with h1 h2 h3 h4
    · exact Or.inl h1.2.1
    · exact Or.inr h2.2.1
    · exact Or.inr h3.2.1
    · exact Or.inr h4.2.1
    · simp at h

theorem map_tolower_letter (t : CStr) (c : Char) (r : CStr)
    (h : List.map tolower ('-' :: t) = '-' :: c :: r) : option_letter ('-' :: t) = c := by
  cases t with
  | nil => simp at h
  | cons c1 t =>
    simp only [List.map_cons, List.cons.injEq] at h
    simpa [option_letter, CStr.at] using h.2.1

/-- One pass through the `switch`: a recognised option updates the locals, any other
option makes `main` return. -/
theorem parse_switch_spec (t : CStr) (o : Options) :
    (recognised_option ('-' :: t) →
      ∃ o2, parse_switch ('-' :: t) o = .ok o2 ∧ o2.arg_index = o.arg_index ∧
        o2.reads = o.reads ∧
        o2.run_exhausive_test = (o.run_exhausive_test || option_letter ('-' :: t) == 'x') ∧
        o2.test_jpgd_decompression =
          (o.test_jpgd_decompression || option_letter ('-' :: t) == 'd') ∧
        o2.test_memory_compression =
          (o.test_memory_compression || option_letter ('-' :: t) == 'm') ∧
        o2.optimize_huffman_tables =
          (o.optimize_huffman_tables || option_letter ('-' :: t) == 'o') ∧
        o2.use_jpgd = (o.use_jpgd && !(option_letter ('-' :: t) == 's')) ∧
        o2.subsampling = (named_subsampling ('-' :: t)).getD o.subsampling) ∧
    (¬ recognised_option ('-' :: t) →
      ∃ e, parse_switch ('-' :: t) o = .error e ∧
        (name_fits ('-' :: t) → e = .invalid_option)) := by
  have hl := named_subsampling_letter t
  have hn : ∀ c : Char, c ≠ 'l' → c ≠ 'h' → option_letter ('-' :: t) = c →
      named_subsampling ('-' :: t) = none := by
    intro c h1 h2 hc
    cases hns : named_subsampling ('-' :: t) with
    | none => rfl
    | some m =>
      rcases hl (by simp [hns]) with h | h
      · exact absurd (hc.symm.trans h) h1
      · exact absurd (hc.symm.trans h) h2
  have e1 : List.map tolower ['l', 'u', 'm', 'a'] = ['l', 'u', 'm', 'a'] := by decide
  have e2 : List.map tolower ['h', '1', 'v', '1'] = ['h', '1', 'v', '1'] := by decide
  have e3 : List.map tolower ['h', '2', 'v', '1'] = ['h', '2', 'v', '1'] := by decide
  have e4 : List.map tolower ['h', '2', 'v', '2'] = ['h', '2', 'v', '2'] := by decide
  have hml := map_tolower_letter t
  have hd : tolower '-' = '-' := by decide
  unfold recognised_option name_fits
  unfold parse_switch
  simp only [strcasecmp_eq_tail, e1, e2, e3, e4]
  have hol : option_letter ('-' :: t) = tolower (CStr.at ('-' :: t) 1) := rfl
  rw [← hol]
  generalize List.drop 2 ('-' :: t) = name
  split
  · rename_i heq
    simp [heq, hn 'd' (by decide) (by decide) heq]
  · rename_i heq
    by_cases hlen : name.length < 256
    · simp [heq, hn 'g' (by decide) (by decide) heq, strcpy, hlen]
    · simp [heq, hn 'g' (by decide) (by decide) heq, strcpy, hlen]
  · rename_i heq
    simp [heq, hn 'x' (by decide) (by decide) heq]
  · rename_i heq
    simp [heq, hn 'm' (by decide) (by decide) heq]
  · rename_i heq
    simp [heq, hn 'o' (by decide) (by decide) heq]
  · rename_i heq
    have n2 : List.map tolower t ≠ ['h', '1', 'v', '1'] := fun h =>
      absurd ((hml 'h' ['1', 'v', '1'] (by simp [h, hd])).symm.trans heq) (by decide)
    have n3 : List.map tolower t ≠ ['h', '2', 'v', '1'] := fun h =>
      absurd ((hml 'h' ['2', 'v', '1'] (by simp [h, hd])).symm.trans heq) (by decide)
    have n4 : List.map tolower t ≠ ['h', '2', 'v', '2'] := fun h =>
      absurd ((hml 'h' ['2', 'v', '2'] (by simp [h, hd])).symm.trans heq) (by decide)
    by_cases m1 : List.map tolower t = ['l', 'u', 'm', 'a']
    · simp [heq, named_subsampling, m1, hd]
    · simp [heq, named_subsampling, m1, n2, n3, n4, hd]
  · rename_i heq
    have n1 : List.map tolower t ≠ ['l', 'u', 'm', 'a'] := fun h =>
      absurd ((hml 'l' ['u', 'm', 'a'] (by simp [h, hd])).symm.trans heq) (by decide)
    by_cases m2 : List.map tolower t = ['h', '1', 'v', '1']
    · simp [heq, named_subsampling, m2, hd]
    by_cases m3 : List.map tolower t = ['h', '2', 'v', '1']
    · simp [heq, named_subsampling, m3, hd]
    by_cases m4 : List.map tolower t = ['h', '2', 'v', '2']
    · simp [heq, named_subsampling, m4, hd]
    · simp [heq, named_subsampling, n1, m2, m3, m4, hd]
  · rename_i heq
    by_cases hlen : name.length < 256
    · simp [heq, hn 'w' (by decide) (by decide) heq, strcpy, hlen]
    · simp [heq, hn 'w' (by decide) (by decide) heq, strcpy, hlen]
  · rename_i heq
    simp [heq, hn 's' (by decide) (by decide) heq]
  · rename_i h1 h2 h3 h4 h5 h6 h7 h8 h9
    have hnone : named_subsampling ('-' :: t) = none := by
      cases hns : named_subsampling ('-' :: t) with
      | none => rfl
      | some m =>
        rcases hl (by simp [hns]) with h | h
        · exact absurd h h6
        · exact absurd h h7
    simp only [hnone, Option.isSome_none, Bool.false_eq_true, or_false, List.mem_cons,
      List.mem_singleton, List.mem_nil_iff, not_true_eq_false, imp_self, and_true]
    refine ⟨fun h => ?_, fun _ => ⟨_, rfl, fun _ => rfl⟩⟩
    rcases h.1 with h | h | h | h | h | h | h
    exacts [(h1 h).elim, (h2 h).elim, (h3 h).elim, (h4 h).elim, (h5 h).elim, (h8 h).elim,
      (h9 h).elim]

theorem parsedFrom_cons (o o2 o1 : Options) (a : CStr) (opts : List CStr)
    (harg : o2.arg_index = o.arg_index)
    (hx : o2.run_exhausive_test = (o.run_exhausive_test || option_letter a == 'x'))
    (hd : o2.test_jpgd_decompression = (o.test_jpgd_decompression || option_letter a == 'd'))
    (hm : o2.test_memory_compression = (o.test_memory_compression || option_letter a == 'm'))
    (ho : o2.optimize_huffman_tables = (o.optimize_huffman_tables || option_letter a == 'o'))
    (hs : o2.use_jpgd = (o.use_jpgd && !(option_letter a == 's')))
    (hsub : o2.subsampling = (named_subsampling a).getD o.subsampling)
    (h : ParsedFrom { o2 with arg_index := o2.arg_index + 1 } opts o1) :
    ParsedFrom o (a :: opts) o1 := by
  obtain ⟨h1, h2, h3, h4, h5, h6, h7⟩ := h
  simp only at h1 h2 h3 h4 h5 h6 h7
  refine ⟨?_, ?_, ?_, ?_, ?_, ?_, ?_⟩
  · rw [h1, harg, List.length_cons]; omega
  · rw [h2, hx]; simp [option_given, Bool.or_assoc]
  · rw [h3, hd]; simp [option_given, Bool.or_assoc]
  · rw [h4, hm]; simp [option_given, Bool.or_assoc]
  · rw [h5, ho]; simp [option_given, Bool.or_assoc]
  · rw [h6, hs]; simp [option_given, Bool.and_assoc]
  · rw [h7, hsub]
    simp only [last_named_subsampling, List.filterMap_cons]
    cases hn : named_subsampling a with
    | none => simp
    | some m =>
      simp only [Option.getD_some]
      cases hl : (List.filterMap named_subsampling opts).getLast? with
      | none =>
        have : List.filterMap named_subsampling opts = [] := by
          simpa [List.getLast?_eq_none_iff] using hl
        simp [this]
      | some m2 =>
        have hne : List.filterMap named_subsampling opts ≠ [] := by
          intro he; simp [he] at hl
        obtain ⟨y, ys, hy⟩ := List.exists_cons_of_ne_nil hne
        rw [hy] at hl ⊢
        rw [List.getLast?_cons_cons, hl]
        simp

/-- The option loop: it ends normally, with the locals the options determine, when
every option is recognised, and makes `main` return otherwise. -/
theorem parse_loop_spec (rest : List CStr) (o : Options) :
    ((∀ a ∈ rest.takeWhile is_option, recognised_option a) →
      ∃ o1, parse_loop rest o = .ok o1 ∧ ParsedFrom o (rest.takeWhile is_option) o1) ∧
    ((¬ ∀ a ∈ rest.takeWhile is_option, recognised_option a) →
      ∃ e o1, parse_loop rest o = .error (e, o1) ∧
        ((∀ a ∈ rest.takeWhile is_option, name_fits a) → e = .invalid_option)) := by
  induction rest generalizing o with
  | nil =>
    refine ⟨fun _ => ⟨o, rfl, ?_⟩, fun h => absurd (by simp) h⟩
    simp [ParsedFrom, option_given, last_named_subsampling]
  | cons a rest ih =>
    by_cases hopt : is_option a = true
    · obtain ⟨t, rfl⟩ := (is_option_iff a).1 hopt
      have hat : CStr.at ('-' :: t) 0 = '-' := rfl
      simp only [List.takeWhile_cons, hopt, if_true, parse_loop, hat, ne_eq, not_true_eq_false,
        if_false]
      obtain ⟨hrec, hnot⟩ := parse_switch_spec t { o with reads := o.reads ++ [o.arg_index] }
      by_cases hr : recognised_option ('-' :: t)
      · obtain ⟨o2, hsw, harg, _, hx, hd, hm, ho, hs, hsub⟩ := hrec hr
        rw [hsw]
        simp only
        obtain ⟨ihok, iherr⟩ := ih { o2 with arg_index := o2.arg_index + 1 }
        constructor
        · intro hall
          obtain ⟨o1, h1, hp⟩ := ihok (fun b hb => hall b (List.mem_cons_of_mem _ hb))
          exact ⟨o1, h1, parsedFrom_cons o o2 o1 _ _ harg hx hd hm ho hs hsub hp⟩
        · intro hnall
          have hrest : ¬ ∀ b ∈ rest.takeWhile is_option, recognised_option b := by
            intro hall
            apply hnall
            intro b hb
            rcases List.mem_cons.1 hb with rfl | hb
            · exact hr
            · exact hall b hb
          obtain ⟨e, o1, h1, hfe⟩ := iherr hrest
          exact ⟨e, o1, h1, fun hfit => hfe (fun b hb => hfit b (List.mem_cons_of_mem _ hb))⟩
      · obtain ⟨e, hsw, hfe⟩ := hnot hr
        rw [hsw]
        exact ⟨fun hall => absurd (hall _ (List.mem_cons_self _ _)) hr,
          fun _ => ⟨e, _, rfl, fun hfit => hfe (hfit _ (List.mem_cons_self _ _))⟩⟩
    · have hat : CStr.at a 0 ≠ '-' := by
        intro h
        apply hopt
        simp [is_option, h]
      simp only [List.takeWhile_cons, hopt, parse_loop, hat, ne_eq, not_false_eq_true, if_true]
      refine ⟨fun _ => ⟨_, rfl, ?_⟩, fun h => absurd (by simp) h⟩
      simp [ParsedFrom, option_given, last_named_subsampling]

/-! ### `main` -/

theorem parsedFrom_init (opts : List CStr) (o : Options)
    (h : ParsedFrom Options.init opts o) :
    o.arg_index = 1 + opts.length ∧
    o.run_exhausive_test = option_given opts 'x' ∧
    o.test_jpgd_decompression = option_given opts 'd' ∧
    o.test_memory_compression = option_given opts 'm' ∧
    o.optimize_huffman_tables = option_given opts 'o' ∧
    o.use_jpgd = !option_given opts 's' ∧
    o.subsampling = (last_named_subsampling opts).getD (-1) := by
  simpa [ParsedFrom, Options.init] using h

/-- With recognised options only, `main` enters its modes with the locals that the
options determine. -/
theorem main_of_recognised (w : World) (ppArgs : List CStr)
    (h : ∀ a ∈ leading_options ppArgs, recognised_option a) :
    ∃ o, ParsedFrom Options.init (leading_options ppArgs) o ∧
      main w ppArgs = main_modes w ppArgs o := by
  obtain ⟨o, h1, hp⟩ := (parse_loop_spec (ppArgs.drop 1) Options.init).1 h
  exact ⟨o, hp, by unfold main; rw [h1]⟩

/-- With an option that is not recognised, `main` leaves from the option loop
without calling the encoder: through `return EXIT_FAILURE` when the names of `-g`
and `-w` fit their arrays. -/
theorem main_of_unrecognised (w : World) (ppArgs : List CStr)
    (h : ¬ ∀ a ∈ leading_options ppArgs, recognised_option a) :
    (main w ppArgs).encoder_params = none ∧
    (main w ppArgs).site ≠ .quality_out_of_range ∧
    ((∀ a ∈ leading_options ppArgs, name_fits a) →
      (main w ppArgs).code = some EXIT_FAILURE ∧ (main w ppArgs).site = .invalid_option) := by
  obtain ⟨e, o, h1, hfe⟩ := (parse_loop_spec (ppArgs.drop 1) Options.init).2 h
  unfold main
  rw [h1]
  cases e with
  | invalid_option => exact ⟨rfl, by simp, fun _ => ⟨rfl, rfl⟩⟩
  | strcpy_overflow =>
    refine ⟨rfl, by simp, fun hfit => ?_⟩
    exact absurd (hfe hfit) (by simp)

theorem options_append_files (ppArgs : List CStr) :
    leading_options ppArgs ++ file_arguments ppArgs = ppArgs.drop 1 :=
  List.takeWhile_append_dropWhile _ _

/-- `arg_c - arg_index` after the option loop is the number of file arguments (or
-1 when `ppArgs` is empty). -/
theorem arg_count_lt (ppArgs : List CStr) (k : Int) (hk : 0 < k) :
    (ppArgs.length : Int) - ((1 + (leading_options ppArgs).length : Nat) : Int) < k ↔
      ((file_arguments ppArgs).length : Int) < k := by
  have h := congrArg List.length (options_append_files ppArgs)
  simp only [List.length_append, List.length_drop] at h
  omega

/-- The file arguments are read from `ppArgs` right after the options. -/
theorem file_argument_get (ppArgs : List CStr) (j : Nat) :
    ppArgs.get? (1 + (leading_options ppArgs).length + j) = (file_arguments ppArgs).get? j := by
  have h := options_append_files ppArgs
  have h2 : ppArgs.get? (1 + (leading_options ppArgs).length + j) =
      (ppArgs.drop 1).get? ((leading_options ppArgs).length + j) := by
    simp only [List.get?_eq_getElem?, List.getElem?_drop]
    congr 1
    omega
  rw [h2, ← h]
  simp only [List.get?_eq_getElem?]
  rw [List.getElem?_append_right (by omega)]
  congr 1
  omega

theorem main_reload_facts (w : World) (o : Options) (dst : Option CStr) (img : LoadedImage)
    (p : params) (reads : List Nat) :
    ((main_reload w o dst img p reads).code = some EXIT_SUCCESS ∨
      (main_reload w o dst img p reads).code = some EXIT_FAILURE) ∧
    (main_reload w o dst img p reads).site ≠ .quality_out_of_range ∧
    (main_reload w o dst img p reads).encoder_params = some p ∧
    ((main_reload w o dst img p reads).code = some EXIT_SUCCESS →
      ∃ u, w.decompress_file o.use_jpgd dst = some u ∧ u.width = img.width ∧
        u.height = img.height) := by
  unfold main_reload
  cases hd : w.decompress_file o.use_jpgd dst with
  | none => simp [EXIT_SUCCESS, EXIT_FAILURE]
  | some u =>
    by_cases hr : u.width ≠ img.width ∨ u.height ≠ img.height
    · simp [hr, EXIT_SUCCESS, EXIT_FAILURE]
    · have hr2 : u.width = img.width ∧ u.height = img.height := by
        push_neg at hr
        exact hr
      simp [hr, hr2]

/-- The default (encode) mode of `main`. -/
theorem main_encode_facts (w : World) (ppArgs : List CStr) (o : Options) :
    ((main_encode w ppArgs o).code = some EXIT_SUCCESS ∨
      (main_encode w ppArgs o).code = some EXIT_FAILURE) ∧
    (main_encode w ppArgs o).site ≠ .quality_out_of_range ∧
    (w.stbi_load (ppArgs.get? o.arg_index) = none →
      (main_encode w ppArgs o).code = some EXIT_FAILURE ∧
        (main_encode w ppArgs o).encoder_params = none) ∧
    (∀ img, w.stbi_load (ppArgs.get? o.arg_index) = some img →
      ∃ p : params, (main_encode w ppArgs o).encoder_params = some p ∧
        p.m_quality = 75 ∧
        p.m_subsampling =
          (if o.subsampling < 0 then (if img.actual_comps = 1 then Y_ONLY else H2V2)
            else o.subsampling) ∧
        p.m_two_pass_flag = o.optimize_huffman_tables ∧
        ((main_encode w ppArgs o).code = some EXIT_SUCCESS →
          (if o.test_memory_compression = true then
              w.compress_to_memory img p = true ∧
                w.fopen_ok (ppArgs.get? (o.arg_index + 1)) = true ∧
                w.fwrite_ok = true ∧ w.fclose_ok = true
            else w.compress_to_file (ppArgs.get? (o.arg_index + 1)) img p = true) ∧
          ∃ u, w.decompress_file o.use_jpgd (ppArgs.get? (o.arg_index + 1)) = some u ∧
            u.width = img.width ∧ u.height = img.height)) := by
  have hq : ¬ ((75 : Int) < 1 ∨ (75 : Int) > 100) := by decide
  unfold main_encode
  dsimp only
  simp only [hq, if_false]
  generalize ppArgs.get? (o.arg_index + 1) = dst
  generalize ppArgs.get? o.arg_index = src
  cases hload : w.stbi_load src with
  | none => simp [EXIT_SUCCESS, EXIT_FAILURE]
  | some img =>
    dsimp only
    generalize hp : main_params 75 o img = p
    have hp1 : p.m_quality = 75 := by rw [← hp]; rfl
    have hp2 : p.m_subsampling =
        (if o.subsampling < 0 then (if img.actual_comps = 1 then Y_ONLY else H2V2)
          else o.subsampling) := by rw [← hp]; rfl
    have hp3 : p.m_two_pass_flag = o.optimize_huffman_tables := by rw [← hp]; rfl
    obtain ⟨r1, r2, r3, r4⟩ := main_reload_facts w o dst img p
      (o.reads ++ [o.arg_index, o.arg_index + 1])
    by_cases hm : o.test_memory_compression = true
    · simp only [hm, if_true]
      by_cases h1 : w.compress_to_memory img p = true
      swap
      · simp [h1, EXIT_SUCCESS, EXIT_FAILURE, hp1, hp2, hp3]
      by_cases h2 : w.fopen_ok dst = true
      swap
      · simp [h1, h2, EXIT_SUCCESS, EXIT_FAILURE, hp1, hp2, hp3]
      by_cases h3 : w.fwrite_ok = true
      swap
      · simp [h1, h2, h3, EXIT_SUCCESS, EXIT_FAILURE, hp1, hp2, hp3]
      by_cases h4 : w.fclose_ok = true
      swap
      · simp [h1, h2, h3, h4, EXIT_SUCCESS, EXIT_FAILURE, hp1, hp2, hp3]
      simp only [h1, h2, h3, h4, Bool.not_true, Bool.false_eq_true, if_false]
      refine ⟨r1, r2, (fun h => by cases h), ?_⟩
      intro img2 h2
      cases h2
      exact ⟨p, r3, hp1, hp2, hp3, fun hc => ⟨⟨h1, trivial, trivial, trivial⟩, r4 hc⟩⟩
    · simp only [hm, Bool.false_eq_true, if_false]
      by_cases h1 : w.compress_to_file dst img p = true
      swap
      · simp [h1, EXIT_SUCCESS, EXIT_FAILURE, hp1, hp2, hp3]
      simp only [h1, Bool.not_true, Bool.false_eq_true, if_false]
      refine ⟨r1, r2, (fun h => by cases h), ?_⟩
      intro img2 h2
      cases h2
      exact ⟨p, r3, hp1, hp2, hp3, fun hc => ⟨h1, r4 hc⟩⟩

theorem test_jpgd_facts (w : World) (src dst : Option CStr) :
    (test_jpgd w src dst = EXIT_SUCCESS ∨ test_jpgd w src dst = EXIT_FAILURE) ∧
    (test_jpgd w src dst = EXIT_SUCCESS →
      ∃ img, w.jpgd_decompress_file src = some img ∧ w.stbi_write_tga dst img = true) := by
  unfold test_jpgd
  cases hd : w.jpgd_decompress_file src with
  | none => simp [EXIT_SUCCESS, EXIT_FAILURE]
  | some img =>
    by_cases hw : w.stbi_write_tga dst img = true
    · simp [hw]
    · simp [hw, EXIT_SUCCESS, EXIT_FAILURE]

theorem named_subsampling_nonneg (a : CStr) (m : Int) (h : named_subsampling a = some m) :
    0 ≤ m := by
  unfold named_subsampling at h
  split_ifs at h <;> simp only [Option.some.injEq, reduceCtorEq] at h <;> subst h <;> decide

theorem last_named_subsampling_nonneg (opts : List CStr) (m : Int)
    (h : last_named_subsampling opts = some m) : 0 ≤ m := by
  have hm : m ∈ opts.filterMap named_subsampling := List.mem_of_getLast?_eq_some h
  obtain ⟨a, _, ha⟩ := List.mem_filterMap.1 hm
  exact named_subsampling_nonneg a m ha

/-- The subsampling that the encode mode computes from the options. -/
theorem subsampling_of_options (opts : List CStr) (actual_comps : Int) :
    (if (last_named_subsampling opts).getD (-1) < 0 then
        (if actual_comps = 1 then Y_ONLY else H2V2)
      else (last_named_subsampling opts).getD (-1)) =
    (match last_named_subsampling opts with
      | some m => m
      | none => if actual_comps = 1 then Y_ONLY else H2V2) := by
  cases h : last_named_subsampling opts with
  | none => simp
  | some m =>
    have := last_named_subsampling_nonneg opts m h
    simp only [Option.getD_some]
    rw [if_neg (by omega)]

/-- The modes of `main` in terms of the command line, for recognised options. -/
theorem main_modes_of_recognised (w : World) (ppArgs : List CStr)
    (h : ∀ a ∈ leading_options ppArgs, recognised_option a) :
    ∃ o, ParsedFrom Options.init (leading_options ppArgs) o ∧
      ppArgs.get? o.arg_index = (file_arguments ppArgs).get? 0 ∧
      ppArgs.get? (o.arg_index + 1) = (file_arguments ppArgs).get? 1 ∧
      main w ppArgs =
        if option_given (leading_options ppArgs) 'x' = true then
          if ((file_arguments ppArgs).length : Int) < 1 then
            ⟨some print_usage, .usage_exhaustive, none, o.reads⟩
          else
            ⟨some (exhausive_compression_test w ((file_arguments ppArgs).get? 0)
                (!option_given (leading_options ppArgs) 's')),
              .exhaustive, none, o.reads ++ [o.arg_index]⟩
        else if option_given (leading_options ppArgs) 'd' = true then
          if ((file_arguments ppArgs).length : Int) < 2 then
            ⟨some print_usage, .usage_decompress, none, o.reads⟩
          else
            ⟨some (test_jpgd w ((file_arguments ppArgs).get? 0)
                ((file_arguments ppArgs).get? 1)),
              .decompress, none, o.reads ++ [o.arg_index, o.arg_index + 1]⟩
        else main_encode w ppArgs o := by
  obtain ⟨o, hp, hm⟩ := main_of_recognised w ppArgs h
  obtain ⟨h1, h2, h3, _, _, h6, _⟩ := parsedFrom_init _ o hp
  have e0 : ppArgs.get? o.arg_index = (file_arguments ppArgs).get? 0 := by
    rw [h1]; exact file_argument_get ppArgs 0
  have e1 : ppArgs.get? (o.arg_index + 1) = (file_arguments ppArgs).get? 1 := by
    rw [h1]; exact file_argument_get ppArgs 1
  refine ⟨o, hp, e0, e1, ?_⟩
  rw [hm]
  unfold main_modes
  simp only [h2, h3, h6, e0, e1]
  have a1 := arg_count_lt ppArgs 1 (by decide)
  have a2 := arg_count_lt ppArgs 2 (by decide)
  rw [← h1] at a1 a2
  simp only [a1, a2]

theorem test_load_failed (w : World) (file : Option CStr) (use_jpgd : Bool)
    (h : w.stbi_load file = none) : exhausive_compression_test w file use_jpgd = EXIT_FAILURE := by
  unfold exhausive_compression_test exhausive_compression_test_state
  rw [h]

/-! ### Claims about `main` -/

/-- C8: for a command line whose `-g` and `-w` options carry names that fit their
256-byte arrays: whenever `main` hands `params` to the encoder, the source image was loaded
from the first file argument and `m_subsampling` is the mode named by the last of
the options that name one (`-luma`, `-h1v1`, `-h2v1`, `-h2v2` in any mix of case, for
`Y_ONLY`, `H1V1`, `H2V1`, `H2V2`), or, when no option names one, `Y_ONLY` if the
source has 1 component and `H2V2` otherwise; the encoder is reached whenever the
options are recognised, neither `-x` nor `-d` is among them, and the source loads;
and any option whose letter is `l` or `h` and that names no mode makes `main` return
`EXIT_FAILURE`. -/
theorem encoder_subsampling (w : World) (ppArgs : List CStr)
    (hfit : ∀ a ∈ leading_options ppArgs, name_fits a) :
    (∀ p, (main w ppArgs).encoder_params = some p →
      ∃ img, w.stbi_load ((file_arguments ppArgs).get? 0) = some img ∧
        p.m_subsampling =
          (match last_named_subsampling (leading_options ppArgs) with
            | some m => m
            | none => if img.actual_comps = 1 then Y_ONLY else H2V2)) ∧
    ((∀ a ∈ leading_options ppArgs, recognised_option a) →
      option_given (leading_options ppArgs) 'x' = false →
      option_given (leading_options ppArgs) 'd' = false →
      ∀ img, w.stbi_load ((file_arguments ppArgs).get? 0) = some img →
        ∃ p, (main w ppArgs).encoder_params = some p) ∧
    (∀ a ∈ leading_options ppArgs, (option_letter a = 'l' ∨ option_letter a = 'h') →
      named_subsampling a = none → (main w ppArgs).code = some EXIT_FAILURE) ∧
    (∀ a : CStr,
      (a.map tolower = ['-', 'l', 'u', 'm', 'a'] → named_subsampling a = some Y_ONLY) ∧
      (a.map tolower = ['-', 'h', '1', 'v', '1'] → named_subsampling a = some H1V1) ∧
      (a.map tolower = ['-', 'h', '2', 'v', '1'] → named_subsampling a = some H2V1) ∧
      (a.map tolower = ['-', 'h', '2', 'v', '2'] → named_subsampling a = some H2V2) ∧
      (a.map tolower ∉ [['-', 'l', 'u', 'm', 'a'], ['-', 'h', '1', 'v', '1'],
          ['-', 'h', '2', 'v', '1'], ['-', 'h', '2', 'v', '2']] →
        named_subsampling a = none)) := by
  refine ⟨?_, ?_, ?_, ?_⟩
  · intro p hp
    by_cases hrec : ∀ a ∈ leading_options ppArgs, recognised_option a
    · obtain ⟨o, hpf, e0, e1, hm⟩ := main_modes_of_recognised w ppArgs hrec
      obtain ⟨_, _, _, _, _, _, h7⟩ := parsedFrom_init _ o hpf
      rw [hm] at hp
      split_ifs at hp
      obtain ⟨_, _, hnone, hsome⟩ := main_encode_facts w ppArgs o
      rw [e0] at hnone hsome
      cases hload : w.stbi_load ((file_arguments ppArgs).get? 0) with
      | none => rw [(hnone hload).2] at hp; simp at hp
      | some img =>
        obtain ⟨p2, hp2, _, hsub, _⟩ := hsome img hload
        rw [hp2] at hp
        cases hp
        refine ⟨img, rfl, ?_⟩
        rw [hsub, h7]
        exact subsampling_of_options _ _
    · rw [(main_of_unrecognised w ppArgs hrec).1] at hp
      simp at hp
  · intro hrec hx hd img hload
    obtain ⟨o, hpf, e0, e1, hm⟩ := main_modes_of_recognised w ppArgs hrec
    rw [hm]
    simp only [hx, hd, Bool.false_eq_true, if_false]
    obtain ⟨_, _, _, hsome⟩ := main_encode_facts w ppArgs o
    rw [e0] at hsome
    obtain ⟨p2, hp2, _⟩ := hsome img hload
    exact ⟨p2, hp2⟩
  · intro a ha hl hn
    refine ((main_of_unrecognised w ppArgs (fun hall => ?_)).2.2 hfit).1
    rcases (hall a ha).1 with h | h
    · simp only [List.mem_cons, List.mem_singleton, List.mem_nil_iff, or_false] at h
      rcases hl with hl | hl <;> rw [hl] at h <;> revert h <;> decide
    · simp [hn] at h
  · intro a
    unfold named_subsampling
    refine ⟨fun h => by simp [h], fun h => by simp [h], fun h => by simp [h],
      fun h => by simp [h], fun h => ?_⟩
    simp only [List.mem_cons, List.mem_singleton, List.mem_nil_iff, or_false, not_or] at h
    simp [h.1, h.2.1, h.2.2.1, h.2.2.2]

/-- Witness for C8: `jpge -LUMA -o -h2V1 in out` hands the encoder `H2V1`, the mode
of the last option that names one. -/
theorem encoder_subsampling_witness :
    ∃ img, (world_with_codec codec_steady).stbi_load ((file_arguments args_two_modes).get? 0)
        = some img ∧
      (⟨75, H2V1, false, true⟩ : params).m_subsampling =
        (match last_named_subsampling (leading_options args_two_modes) with
          | some m => m
          | none => if img.actual_comps = 1 then Y_ONLY else H2V2) :=
  (encoder_subsampling (world_with_codec codec_steady) args_two_modes (by decide)).1
    ⟨75, H2V1, false, true⟩ (by decide)

/-- C9: `main` never returns through the branch guarded by
`(quality_factor < 1) || (quality_factor > 100)`, and whenever it hands `params` to
the encoder their `m_quality` is 75, whatever the arguments are. -/
theorem encoder_quality (w : World) (ppArgs : List CStr) :
    (main w ppArgs).site ≠ .quality_out_of_range ∧
    (∀ p, (main w ppArgs).encoder_params = some p → p.m_quality = 75) := by
  by_cases hrec : ∀ a ∈ leading_options ppArgs, recognised_option a
  · obtain ⟨o, hpf, e0, e1, hm⟩ := main_modes_of_recognised w ppArgs hrec
    obtain ⟨_, hsite, hnone, hsome⟩ := main_encode_facts w ppArgs o
    rw [hm]
    split_ifs
    · simp
    · simp
    · simp
    · simp
    · refine ⟨hsite, fun p hp => ?_⟩
      cases hload : w.stbi_load (ppArgs.get? o.arg_index) with
      | none => rw [(hnone hload).2] at hp; simp at hp
      | some img =>
        obtain ⟨p2, hp2, hq, _⟩ := hsome img hload
        rw [hp2] at hp
        cases hp
        exact hq
  · obtain ⟨h1, h2, _⟩ := main_of_unrecognised w ppArgs hrec
    rw [h1]
    exact ⟨h2, fun p hp => by simp at hp⟩

/-- Witness for C9: `jpge -LUMA -o -h2V1 in out` hands the encoder the quality 75. -/
theorem encoder_quality_witness : (⟨75, H2V1, false, true⟩ : params).m_quality = 75 :=
  (encoder_quality (world_with_codec codec_steady) args_two_modes).2
    ⟨75, H2V1, false, true⟩ (by decide)

/-- C10, as stated, fails: `jpge -x -d in` has the option `-d` and fewer than two
file arguments, yet in a world in which the source loads and every run of the
exhaustive test passes `main` returns 0: `-x` takes precedence over `-d`. -/
theorem exit_code_counterexample :
    option_given (leading_options args_exhaustive_and_decompress) 'd' = true ∧
    (file_arguments args_exhaustive_and_decompress).length < 2 ∧
    (∀ a ∈ leading_options args_exhaustive_and_decompress, recognised_option a) ∧
    (main (world_with_codec codec_steady) args_exhaustive_and_decompress).code = some 0 ∧
    (main (world_with_codec codec_steady) args_exhaustive_and_decompress).code ≠ some 1 := by
  have hcode : (main (world_with_codec codec_steady) args_exhaustive_and_decompress).code =
      some (exhausive_compression_test (world_with_codec codec_steady) (some ['i', 'n']) true) :=
    rfl
  have hzero :
      (main (world_with_codec codec_steady) args_exhaustive_and_decompress).code = some 0 := by
    rw [hcode]
    exact congrArg some
      ((test_success_iff (world_with_codec codec_steady) (some ['i', 'n']) true ⟨4, 4, 3⟩
        rfl).2 (fun c _ => codec_steady_passes c))
  refine ⟨by decide, by decide, by decide, hzero, ?_⟩
  rw [hzero]
  decide

/-- C10, amended: for a command line whose `-g` and `-w` options carry names that
fit their 256-byte arrays, `main` returns 0 (`EXIT_SUCCESS`) or 1 (`EXIT_FAILURE`).
It returns 1 when an option is not recognised; when `-x` is given and there is no
file argument (through `print_usage` if the options are recognised); and when `-d`
is given, `-x` is not, and there are fewer than two file arguments (likewise). When
it returns 0, every option was recognised and every call of the mode succeeded:
with `-x`, the source loaded and all 800 combinations passed; with `-d` and no `-x`,
the JPEG decompressed and the TGA was written; otherwise the source loaded, the
encoder was called and succeeded (to memory with `-m`, with `fopen`, `fwrite` and
`fclose` succeeding; to the file otherwise), and the written file reloaded with the
resolution of the source. -/
theorem main_exit_code (w : World) (ppArgs : List CStr)
    (hfit : ∀ a ∈ leading_options ppArgs, name_fits a) :
    ((main w ppArgs).code = some 0 ∨ (main w ppArgs).code = some 1) ∧
    ((∃ a ∈ leading_options ppArgs, ¬ recognised_option a) → (main w ppArgs).code = some 1) ∧
    (option_given (leading_options ppArgs) 'x' = true → file_arguments ppArgs = [] →
      (main w ppArgs).code = some 1 ∧
      ((∀ a ∈ leading_options ppArgs, recognised_option a) →
        (main w ppArgs).code = some print_usage ∧
          (main w ppArgs).site = .usage_exhaustive)) ∧
    (option_given (leading_options ppArgs) 'd' = true →
      option_given (leading_options ppArgs) 'x' = false →
      (file_arguments ppArgs).length < 2 →
      (main w ppArgs).code = some 1 ∧
      ((∀ a ∈ leading_options ppArgs, recognised_option a) →
        (main w ppArgs).code = some print_usage ∧
          (main w ppArgs).site = .usage_decompress)) ∧
    ((main w ppArgs).code = some 0 →
      (∀ a ∈ leading_options ppArgs, recognised_option a) ∧
      (option_given (leading_options ppArgs) 'x' = true →
        ∃ img, w.stbi_load ((file_arguments ppArgs).get? 0) = some img ∧
          ∀ c ∈ all_combinations,
            combination_passes
              (w.test_codec (!option_given (leading_options ppArgs) 's') img)
              img.width img.height c) ∧
      (option_given (leading_options ppArgs) 'x' = false →
        option_given (leading_options ppArgs) 'd' = true →
        ∃ img, w.jpgd_decompress_file ((file_arguments ppArgs).get? 0) = some img ∧
          w.stbi_write_tga ((file_arguments ppArgs).get? 1) img = true) ∧
      (option_given (leading_options ppArgs) 'x' = false →
        option_given (leading_options ppArgs) 'd' = false →
        ∃ img p u, w.stbi_load ((file_arguments ppArgs).get? 0) = some img ∧
          (main w ppArgs).encoder_params = some p ∧
          (if option_given (leading_options ppArgs) 'm' = true then
              w.compress_to_memory img p = true ∧
                w.fopen_ok ((file_arguments ppArgs).get? 1) = true ∧
                w.fwrite_ok = true ∧ w.fclose_ok = true
            else w.compress_to_file ((file_arguments ppArgs).get? 1) img p = true) ∧
          w.decompress_file (!option_given (leading_options ppArgs) 's')
            ((file_arguments ppArgs).get? 1) = some u ∧
          u.width = img.width ∧ u.height = img.height)) := by
  by_cases hrec : ∀ a ∈ leading_options ppArgs, recognised_option a
  swap
  · obtain ⟨h1, _⟩ := (main_of_unrecognised w ppArgs hrec).2.2 hfit
    have h1b : (main w ppArgs).code = some 1 := h1
    refine ⟨Or.inr h1b, fun _ => h1b, fun _ _ => ⟨h1b, fun h => absurd h hrec⟩,
      fun _ _ _ => ⟨h1b, fun h => absurd h hrec⟩, fun h0 => ?_⟩
    rw [h1b] at h0
    exact absurd h0 (by decide)
  obtain ⟨o, hpf, e0, e1, hm⟩ := main_modes_of_recognised w ppArgs hrec
  obtain ⟨_, _, _, h4, _, h6, _⟩ := parsedFrom_init _ o hpf
  have hnot : ¬ ∃ a ∈ leading_options ppArgs, ¬ recognised_option a := by
    rintro ⟨a, ha, hna⟩
    exact hna (hrec a ha)
  by_cases hx : option_given (leading_options ppArgs) 'x' = true
  · by_cases hf : ((file_arguments ppArgs).length : Int) < 1
    · have hmain : main w ppArgs = ⟨some print_usage, .usage_exhaustive, none, o.reads⟩ := by
        rw [hm]; simp only [hx, hf, if_true]
      have hc : (main w ppArgs).code = some 1 := by rw [hmain]; rfl
      refine ⟨Or.inr hc, fun h => absurd h hnot, fun _ _ => ⟨hc, fun _ => ?_⟩,
        fun _ hx2 => ?_, fun h0 => ?_⟩
      · rw [hmain]; exact ⟨rfl, rfl⟩
      · rw [hx] at hx2; exact absurd hx2 (by decide)
      · rw [hc] at h0; exact absurd h0 (by decide)
    · have hmain : main w ppArgs =
          ⟨some (exhausive_compression_test w ((file_arguments ppArgs).get? 0)
              (!option_given (leading_options ppArgs) 's')),
            .exhaustive, none, o.reads ++ [o.arg_index]⟩ := by
        rw [hm]; simp only [hx, hf, if_true, if_false]
      have hc : (main w ppArgs).code =
          some (exhausive_compression_test w ((file_arguments ppArgs).get? 0)
            (!option_given (leading_options ppArgs) 's')) := by rw [hmain]
      refine ⟨?_, fun h => absurd h hnot, fun _ hnil => ?_, fun _ hx2 => ?_, fun h0 => ?_⟩
      · rw [hc]
        rcases test_exit_code w ((file_arguments ppArgs).get? 0)
          (!option_given (leading_options ppArgs) 's') with h | h
        · exact Or.inl (congrArg some h)
        · exact Or.inr (congrArg some h)
      · rw [hnil] at hf; exact absurd (by decide) hf
      · rw [hx] at hx2; exact absurd hx2 (by decide)
      · rw [hc] at h0
        have h0i := Option.some.inj h0
        refine ⟨hrec, fun _ => ?_, fun hx2 => ?_, fun hx2 => ?_⟩
        · cases hload : w.stbi_load ((file_arguments ppArgs).get? 0) with
          | none =>
            rw [test_load_failed w _ _ hload] at h0i
            exact absurd h0i (by decide)
          | some img =>
            exact ⟨img, rfl, (test_success_iff w _ _ img hload).1 h0i⟩
        · rw [hx] at hx2; exact absurd hx2 (by decide)
        · rw [hx] at hx2; exact absurd hx2 (by decide)
  have hx0 : option_given (leading_options ppArgs) 'x' = false := by
    simpa using hx
  by_cases hd : option_given (leading_options ppArgs) 'd' = true
  · by_cases hf : ((file_arguments ppArgs).length : Int) < 2
    · have hmain : main w ppArgs = ⟨some print_usage, .usage_decompress, none, o.reads⟩ := by
        rw [hm]; simp only [hx0, hd, hf, if_true, Bool.false_eq_true, if_false]
      have hc : (main w ppArgs).code = some 1 := by rw [hmain]; rfl
      refine ⟨Or.inr hc, fun h => absurd h hnot, fun hx2 => absurd hx2 hx,
        fun _ _ _ => ⟨hc, fun _ => ?_⟩, fun h0 => ?_⟩
      · rw [hmain]; exact ⟨rfl, rfl⟩
      · rw [hc] at h0; exact absurd h0 (by decide)
    · have hmain : main w ppArgs =
          ⟨some (test_jpgd w ((file_arguments ppArgs).get? 0)
              ((file_arguments ppArgs).get? 1)),
            .decompress, none, o.reads ++ [o.arg_index, o.arg_index + 1]⟩ := by
        rw [hm]; simp only [hx0, hd, hf, if_true, Bool.false_eq_true, if_false]
      have hc : (main w ppArgs).code =
          some (test_jpgd w ((file_arguments ppArgs).get? 0)
            ((file_arguments ppArgs).get? 1)) := by
        rw [hmain]
      obtain ⟨t1, t2⟩ := test_jpgd_facts w ((file_arguments ppArgs).get? 0)
        ((file_arguments ppArgs).get? 1)
      refine ⟨?_, fun h => absurd h hnot, fun hx2 => absurd hx2 hx, fun _ _ hlen => ?_,
        fun h0 => ?_⟩
      · rw [hc]
        rcases t1 with h | h
        · exact Or.inl (congrArg some h)
        · exact Or.inr (congrArg some h)
      · exact absurd (by exact_mod_cast hlen) hf
      · rw [hc] at h0
        refine ⟨hrec, fun hx2 => absurd hx2 hx, fun _ _ => t2 (Option.some.inj h0),
          fun _ hd2 => ?_⟩
        rw [hd] at hd2; exact absurd hd2 (by decide)
  have hd0 : option_given (leading_options ppArgs) 'd' = false := by
    simpa using hd
  have hmain : main w ppArgs = main_encode w ppArgs o := by
    rw [hm]; simp only [hx0, hd0, Bool.false_eq_true, if_false]
  obtain ⟨m1, _, mnone, msome⟩ := main_encode_facts w ppArgs o
  rw [e0, e1, h4, h6] at msome
  rw [e0] at mnone
  refine ⟨?_, fun h => absurd h hnot, fun hx2 => absurd hx2 hx, fun hd2 => absurd hd2 hd,
    fun h0 => ?_⟩
  · rw [hmain]; exact m1
  · rw [hmain] at h0 ⊢
    refine ⟨hrec, fun hx2 => absurd hx2 hx, fun _ hd2 => absurd hd2 hd, fun _ _ => ?_⟩
    cases hload : w.stbi_load ((file_arguments ppArgs).get? 0) with
    | none =>
      rw [(mnone hload).1] at h0
      exact absurd h0 (by decide)
    | some img =>
      obtain ⟨p, hp, _, _, _, hsucc⟩ := msome img hload
      obtain ⟨hcomp, u, hu, hw, hh⟩ := hsucc h0
      exact ⟨img, p, u, rfl, hp, hcomp, hu, hw, hh⟩

/-- Witness for C10: `jpge -lumas in out` has an option that is not recognised, and
`main` returns 1. -/
theorem main_exit_code_witness :
    (main (world_with_codec codec_steady) args_misspelt).code = some 1 :=
  (main_exit_code (world_with_codec codec_steady) args_misspelt (by decide)).2.1
    ⟨['-', 'l', 'u', 'm', 'a', 's'], by decide, by decide⟩

/-! ### `get_pixel` -/

theorem luma_tdiv (r g b : uint8) :
    Int.tdiv ((r.val : Int) * 19595 + (g.val : Int) * 38470 + (b.val : Int) * 7471 + 32768) 65536 =
      ((19595 * r.val + 38470 * g.val + 7471 * b.val + 32768) / 65536 : Nat) := by
  have hr := r.isLt
  have hg := g.isLt
  have hb := b.isLt
  rw [Int.tdiv_eq_ediv (by omega) (by decide)]
  push_cast
  omega

theorem get_pixel_single (pSrc : BytePtr) (luma_only : Bool) :
    get_pixel pSrc luma_only 1 =
      (((pSrc 0).val : Int), ((pSrc 0).val : Int), ((pSrc 0).val : Int)) := by
  simp [get_pixel]

theorem get_pixel_luma (pSrc : BytePtr) (num_comps : Int) (h : num_comps ≠ 1) :
    get_pixel pSrc true num_comps =
      ((((19595 * (pSrc 0).val + 38470 * (pSrc 1).val + 7471 * (pSrc 2).val + 32768) / 65536
          : Nat) : Int),
        (((19595 * (pSrc 0).val + 38470 * (pSrc 1).val + 7471 * (pSrc 2).val + 32768) / 65536
          : Nat) : Int),
        (((19595 * (pSrc 0).val + 38470 * (pSrc 1).val + 7471 * (pSrc 2).val + 32768) / 65536
          : Nat) : Int)) := by
  simp only [get_pixel, h, if_false, if_true]
  rw [luma_tdiv]

theorem get_pixel_rgb (pSrc : BytePtr) (num_comps : Int) (h : num_comps ≠ 1) :
    get_pixel pSrc false num_comps =
      (((pSrc 0).val : Int), ((pSrc 1).val : Int), ((pSrc 2).val : Int)) := by
  simp [get_pixel, h]

/-- Every output of `get_pixel` is in 0..255. -/
theorem get_pixel_range (pSrc : BytePtr) (luma_only : Bool) (num_comps : Int) (c : Nat) :
    0 ≤ channel (get_pixel pSrc luma_only num_comps) c ∧
      channel (get_pixel pSrc luma_only num_comps) c ≤ 255 := by
  have h0 := (pSrc 0).isLt
  have h1 := (pSrc 1).isLt
  have h2 := (pSrc 2).isLt
  have hl : (19595 * (pSrc 0).val + 38470 * (pSrc 1).val + 7471 * (pSrc 2).val + 32768) / 65536
      ≤ 255 := by omega
  by_cases hn : num_comps = 1
  · subst hn
    rw [get_pixel_single]
    unfold channel
    split <;> simp only <;> omega
  · cases luma_only with
    | true =>
      rw [get_pixel_luma pSrc num_comps hn]
      unfold channel
      split <;> simp only <;> omega
    | false =>
      rw [get_pixel_rgb pSrc num_comps hn]
      unfold channel
      split <;> simp only <;> omega

/-- C11: `get_pixel` writes, when `num_comps = 1`, the single sample to all three
outputs whatever `luma_only` is; otherwise, when `luma_only` is set, the value
`(19595*R + 38470*G + 7471*B + 32768) div 65536` to all three outputs; otherwise the
samples `R`, `G`, `B` unchanged. -/
theorem get_pixel_spec (pSrc : BytePtr) (luma_only : Bool) (num_comps : Int) :
    (num_comps = 1 →
      get_pixel pSrc luma_only num_comps =
        (((pSrc 0).val : Int), ((pSrc 0).val : Int), ((pSrc 0).val : Int))) ∧
    (num_comps ≠ 1 → luma_only = true →
      get_pixel pSrc luma_only num_comps =
        ((((19595 * (pSrc 0).val + 38470 * (pSrc 1).val + 7471 * (pSrc 2).val + 32768) / 65536
            : Nat) : Int),
          (((19595 * (pSrc 0).val + 38470 * (pSrc 1).val + 7471 * (pSrc 2).val + 32768) / 65536
            : Nat) : Int),
          (((19595 * (pSrc 0).val + 38470 * (pSrc 1).val + 7471 * (pSrc 2).val + 32768) / 65536
            : Nat) : Int))) ∧
    (num_comps ≠ 1 → luma_only = false →
      get_pixel pSrc luma_only num_comps =
        (((pSrc 0).val : Int), ((pSrc 1).val : Int), ((pSrc 2).val : Int))) := by
  refine ⟨fun h => ?_, fun h hl => ?_, fun h hl => ?_⟩
  · subst h; exact get_pixel_single pSrc luma_only
  · subst hl; exact get_pixel_luma pSrc num_comps h
  · subst hl; exact get_pixel_rgb pSrc num_comps h

/-- Witness for C11: the RGB pixel (255, 0, 0) with `luma_only` set gives the luma
`(19595*255 + 32768) div 65536` in all three outputs. -/
theorem get_pixel_spec_witness :
    get_pixel (image_of_bytes [255, 0, 0]) true 3 =
      ((((19595 * 255 + 38470 * 0 + 7471 * 0 + 32768) / 65536 : Nat) : Int),
        (((19595 * 255 + 38470 * 0 + 7471 * 0 + 32768) / 65536 : Nat) : Int),
        (((19595 * 255 + 38470 * 0 + 7471 * 0 + 32768) / 65536 : Nat) : Int)) :=
  (get_pixel_spec (image_of_bytes [255, 0, 0]) true 3).2.1 (by decide) rfl

/-- C12: for a pixel with several components and samples `R`, `G`, `B`, the luma
value that `get_pixel` computes is `(19595*R + 38470*G + 7471*B + 32768) div 65536`,
the truncating quotient of the last `int` subexpression of its computation; it lies
in 0..255; every `int` subexpression lies in the range of a 32-bit signed `int`; the
three weights sum to 65536 and the luma of `R = G = B = v` is `v`; so with either
`luma_only` setting a gray RGB pixel gives the same outputs as the single-channel
pixel of the same gray. -/
theorem luma_bounds (pSrc : BytePtr) (num_comps : Int) (hn : num_comps ≠ 1) :
    (get_pixel pSrc true num_comps).1 =
      (((19595 * (pSrc 0).val + 38470 * (pSrc 1).val + 7471 * (pSrc 2).val + 32768) / 65536
        : Nat) : Int) ∧
    (∃ s, (luma_intermediates (pSrc 0) (pSrc 1) (pSrc 2)).getLast? = some s ∧
      (get_pixel pSrc true num_comps).1 = Int.tdiv s 65536) ∧
    (0 ≤ (get_pixel pSrc true num_comps).1 ∧ (get_pixel pSrc true num_comps).1 ≤ 255) ∧
    (∀ x ∈ luma_intermediates (pSrc 0) (pSrc 1) (pSrc 2), isInt32 x) ∧
    ((19595 : Int) + 38470 + 7471 = 65536) ∧
    (∀ v : uint8, pSrc 0 = v → pSrc 1 = v → pSrc 2 = v →
      get_pixel pSrc true num_comps = ((v.val : Int), (v.val : Int), (v.val : Int))) ∧
    (∀ (v : uint8) (pGray : BytePtr) (luma_only : Bool),
      pSrc 0 = v → pSrc 1 = v → pSrc 2 = v → pGray 0 = v →
      get_pixel pSrc luma_only num_comps = get_pixel pGray luma_only 1) := by
  have h0 := (pSrc 0).isLt
  have h1 := (pSrc 1).isLt
  have h2 := (pSrc 2).isLt
  have hval := get_pixel_luma pSrc num_comps hn
  have hgray : ∀ v : uint8, pSrc 0 = v → pSrc 1 = v → pSrc 2 = v →
      get_pixel pSrc true num_comps = ((v.val : Int), (v.val : Int), (v.val : Int)) := by
    intro v e0 e1 e2
    have hv := v.isLt
    rw [hval, e0, e1, e2]
    have : (19595 * v.val + 38470 * v.val + 7471 * v.val + 32768) / 65536 = v.val := by omega
    rw [this]
  refine ⟨by rw [hval], ⟨_, rfl, ?_⟩, ?_, ?_, by decide, hgray, ?_⟩
  · rw [hval]
    exact (luma_tdiv (pSrc 0) (pSrc 1) (pSrc 2)).symm
  · exact get_pixel_range pSrc true num_comps 0
  · intro x hx
    simp only [luma_intermediates, List.mem_cons, List.mem_singleton, List.mem_nil_iff,
      or_false] at hx
    unfold isInt32
    rcases hx with rfl | rfl | rfl | rfl | rfl | rfl <;> omega
  · intro v pGray luma_only e0 e1 e2 eg
    rw [get_pixel_single, eg]
    cases luma_only with
    | true => exact hgray v e0 e1 e2
    | false => rw [get_pixel_rgb pSrc num_comps hn, e0, e1, e2]

/-- Witness for C12: the gray RGB pixel (200, 200, 200) has the luma 200. -/
theorem luma_bounds_witness :
    get_pixel (image_of_bytes [200, 200, 200]) true 3 = (200, 200, 200) :=
  (luma_bounds (image_of_bytes [200, 200, 200]) 3 (by decide)).2.2.2.2.2.1 200 rfl rfl rfl

/-! ### `image_compare` -/

theorem labs_eq_abs (x : Int) : labs x = |x| := by
  unfold labs
  split_ifs with h
  · exact (abs_of_neg h).symm
  · exact (abs_of_nonneg (not_lt.1 h)).symm

theorem foldlM_flatMap_option {α β γ : Type} (f : α → List β) (g : γ → β → Option γ)
    (l : List α) (init : γ) :
    (l.flatMap f).foldlM g init = l.foldlM (fun acc x => (f x).foldlM g acc) init := by
  induction l generalizing init with
  | nil => rfl
  | cons x xs ih =>
    rw [List.flatMap_cons, List.foldlM_append, List.foldlM_cons]
    cases (f x).foldlM g init with
    | none => rfl
    | some acc => exact ih acc

theorem foldlM_congr_mem_option {α γ : Type} (f g : γ → α → Option γ) (l : List α) (init : γ)
    (h : ∀ acc, ∀ x ∈ l, f acc x = g acc x) : l.foldlM f init = l.foldlM g init := by
  induction l generalizing init with
  | nil => rfl
  | cons x xs ih =>
    rw [List.foldlM_cons, List.foldlM_cons, h init x (List.mem_cons_self _ _)]
    cases g init x with
    | none => rfl
    | some acc => exact ih acc (fun acc y hy => h acc y (List.mem_cons_of_mem _ hy))

/-- Inside an image whose size in bytes fits an `int`, no pixel offset overflows. -/
theorem pixel_offset_eq (width height comps y x : Int) (hc : 1 ≤ comps)
    (hsize : width * height * comps < 2 ^ 31) (hy0 : 0 ≤ y) (hy : y < height) (hx0 : 0 ≤ x)
    (hx : x < width) : pixel_offset y width x comps = some ((y * width + x) * comps) := by
  have hw : 0 < width := by omega
  have h1 : y * width ≤ (height - 1) * width :=
    mul_le_mul_of_nonneg_right (by omega) (le_of_lt hw)
  have h0 : 0 ≤ y * width := mul_nonneg hy0 (le_of_lt hw)
  have h2 : y * width + x + 1 ≤ width * height := by
    have : (height - 1) * width = width * height - width := by ring
    omega
  have h3 : (y * width + x + 1) * comps ≤ width * height * comps :=
    mul_le_mul_of_nonneg_right h2 (by omega)
  have h4 : (y * width + x) * 1 ≤ (y * width + x) * comps :=
    mul_le_mul_of_nonneg_left hc (by omega)
  have h5 : (y * width + x + 1) * comps = (y * width + x) * comps + comps := by ring
  have a1 : isInt32 (y * width) := by unfold isInt32; constructor <;> omega
  have a2 : isInt32 (y * width + x) := by unfold isInt32; constructor <;> omega
  have a3 : isInt32 ((y * width + x) * comps) := by unfold isInt32; constructor <;> omega
  simp only [pixel_offset, int_result, a1, a2, a3, if_true, Option.some_bind]

/-- The histogram is built by incrementing at the differences, in loop order. -/
theorem image_compare_hist_eq (width height : Int) (pComp_image : BytePtr)
    (comp_image_comps : Int) (pUncomp_image_data : BytePtr) (uncomp_comps : Int)
    (luma_only : Bool) (hc1 : 1 ≤ comp_image_comps) (hc2 : 1 ≤ uncomp_comps)
    (hs1 : width * height * comp_image_comps < 2 ^ 31)
    (hs2 : width * height * uncomp_comps < 2 ^ 31) :
    image_compare_hist width height pComp_image comp_image_comps pUncomp_image_data
        uncomp_comps luma_only =
      (abs_differences width height pComp_image comp_image_comps pUncomp_image_data
        uncomp_comps luma_only).foldlM hist_increment (fun _ => 0) := by
  unfold image_compare_hist abs_differences
  rw [foldlM_flatMap_option]
  refine foldlM_congr_mem_option _ _ _ _ (fun h0 y hy => ?_)
  rw [foldlM_flatMap_option]
  refine foldlM_congr_mem_option _ _ _ _ (fun h x hx => ?_)
  rw [List.mem_range] at hy hx
  rw [pixel_offset_eq width height comp_image_comps y x hc1 hs1 (by omega) (by omega)
      (by omega) (by omega),
    pixel_offset_eq width height uncomp_comps y x hc2 hs2 (by omega) (by omega)
      (by omega) (by omega)]
  simp only [Option.some_bind, image_compare_pixel, List.foldlM_map, labs_eq_abs, Nat.zero_add]

/-- Increments inside the array never fail, and count the occurrences. -/
theorem foldlM_hist_increment (l : List Int) (h0 : Int → Nat)
    (hl : ∀ i ∈ l, 0 ≤ i ∧ i ≤ 255) :
    l.foldlM hist_increment h0 = some (fun i => h0 i + l.count i) := by
  induction l generalizing h0 with
  | nil => simp
  | cons d l ih =>
    have hd := hl d (List.mem_cons_self _ _)
    have hin : 0 ≤ d ∧ d < 256 := by omega
    rw [List.foldlM_cons]
    simp only [hist_increment, hin, and_self, if_true, Option.some_bind]
    show l.foldlM hist_increment (Function.update h0 d (h0 d + 1)) = _
    rw [ih _ (fun i hi => hl i (List.mem_cons_of_mem _ hi))]
    congr 1
    funext i
    by_cases hi : i = d
    · subst hi
      simp [List.count_cons_self]
      omega
    · have hdi : ¬ d = i := fun h => hi h.symm
      simp [Function.update_noteq hi, List.count_cons, hdi]

/-- The loop over the first `n` histogram entries leaves in `max_err` the largest
index below `n` with a non-zero count (0 when there is none). -/
theorem max_err_of_range (hist : Int → Nat) (n : Nat) :
    ∃ k : Nat,
      ((List.range n).foldl
        (fun (acc : HistSums) (i : Nat) =>
          if hist (i : Int) = 0 then acc
          else
            let x : ℚ := (i : ℚ) * (hist (i : Int) : ℚ)
            { max_err := if (i : ℚ) > acc.max_err then (i : ℚ) else acc.max_err
              sum := acc.sum + x
              sum2 := acc.sum2 + (i : ℚ) * x })
        ⟨0, 0, 0⟩).max_err = (k : ℚ) ∧
      (∀ i : Nat, i < n → hist (i : Int) ≠ 0 → i ≤ k) ∧
      (k = 0 ∨ (k < n ∧ hist (k : Int) ≠ 0)) := by
  induction n with
  | zero => exact ⟨0, by simp, by simp, Or.inl rfl⟩
  | succ n ih =>
    obtain ⟨k, hk, hle, hmem⟩ := ih
    rw [List.range_succ, List.foldl_append, List.foldl_cons, List.foldl_nil]
    by_cases h0 : hist (n : Int) = 0
    · refine ⟨k, by simp only [h0, if_true]; exact hk, ?_, ?_⟩
      · intro i hi hne
        rcases Nat.lt_succ_iff_lt_or_eq.1 hi with hlt | rfl
        · exact hle i hlt hne
        · exact absurd h0 hne
      · rcases hmem with h | ⟨h1, h2⟩
        · exact Or.inl h
        · exact Or.inr ⟨Nat.lt_succ_of_lt h1, h2⟩
    · simp only [h0, if_false, hk]
      by_cases hgt : (n : ℚ) > (k : ℚ)
      · refine ⟨n, by simp only [hgt, if_true], ?_, Or.inr ⟨Nat.lt_succ_self n, h0⟩⟩
        intro i hi _
        exact Nat.lt_succ_iff.1 hi
      · have hnk : n ≤ k := by
          have : (n : ℚ) ≤ (k : ℚ) := not_lt.1 hgt
          exact_mod_cast this
        refine ⟨k, by simp only [hgt, if_false], ?_, ?_⟩
        · intro i hi hne
          rcases Nat.lt_succ_iff_lt_or_eq.1 hi with hlt | rfl
          · exact hle i hlt hne
          · exact hnk
        · rcases hmem with h | ⟨h1, h2⟩
          · exact Or.inl h
          · exact Or.inr ⟨Nat.lt_succ_of_lt h1, h2⟩

theorem mem_abs_differences (width height : Int) (pComp_image : BytePtr)
    (comp_image_comps : Int) (pUncomp_image_data : BytePtr) (uncomp_comps : Int)
    (luma_only : Bool) (d : Int) :
    d ∈ abs_differences width height pComp_image comp_image_comps pUncomp_image_data
        uncomp_comps luma_only ↔
      ∃ y x c : Nat, (y : Int) < height ∧ (x : Int) < width ∧ c < 3 ∧
        d = |channel
              (get_pixel (pComp_image.add (((y : Int) * width + (x : Int)) * comp_image_comps))
                luma_only comp_image_comps) c -
            channel
              (get_pixel (pUncomp_image_data.add (((y : Int) * width + (x : Int)) * uncomp_comps))
                luma_only uncomp_comps) c| := by
  simp only [abs_differences, List.mem_flatMap, List.mem_map, List.mem_range]
  constructor
  · rintro ⟨y, hy, x, hx, c, hc, rfl⟩
    exact ⟨y, x, c, by omega, by omega, hc, rfl⟩
  · rintro ⟨y, x, c, hy, hx, hc, rfl⟩
    exact ⟨y, by omega, x, by omega, c, hc, rfl⟩

theorem abs_differences_range (width height : Int) (pComp_image : BytePtr)
    (comp_image_comps : Int) (pUncomp_image_data : BytePtr) (uncomp_comps : Int)
    (luma_only : Bool) (d : Int)
    (h : d ∈ abs_differences width height pComp_image comp_image_comps pUncomp_image_data
        uncomp_comps luma_only) : 0 ≤ d ∧ d ≤ 255 := by
  obtain ⟨y, x, c, _, _, _, rfl⟩ := (mem_abs_differences _ _ _ _ _ _ _ _).1 h
  have ha := get_pixel_range
    (pComp_image.add (((y : Int) * width + (x : Int)) * comp_image_comps)) luma_only
    comp_image_comps c
  have hb := get_pixel_range
    (pUncomp_image_data.add (((y : Int) * width + (x : Int)) * uncomp_comps)) luma_only
    uncomp_comps c
  refine ⟨abs_nonneg _, ?_⟩
  rw [abs_le]
  constructor <;> omega

/-- C13: for every width and height of at least 1 and every pair of images of byte
samples with 1 or 3 components each whose sizes in bytes `width * height * comps` fit
an `int`, and either `luma_only` setting: no pixel offset overflows, the histogram
indices that `image_compare` uses are the values `|a[c] - b[c]|` of the `get_pixel`
outputs over all pixels and the three channels; each lies in 0..255, so no
increment falls outside `hist[256]` and the histogram counts their occurrences; and
`results.max_err` is the maximum of those values. -/
theorem image_compare_spec (width height : Int) (hw : 1 ≤ width) (hh : 1 ≤ height)
    (pComp_image : BytePtr) (comp_image_comps : Int) (pUncomp_image_data : BytePtr)
    (uncomp_comps : Int) (luma_only : Bool)
    (hc1 : comp_image_comps = 1 ∨ comp_image_comps = 3)
    (hc2 : uncomp_comps = 1 ∨ uncomp_comps = 3)
    (hs1 : width * height * comp_image_comps < 2 ^ 31)
    (hs2 : width * height * uncomp_comps < 2 ^ 31) :
    (∀ d, d ∈ abs_differences width height pComp_image comp_image_comps pUncomp_image_data
        uncomp_comps luma_only ↔
      ∃ y x c : Nat, (y : Int) < height ∧ (x : Int) < width ∧ c < 3 ∧
        d = |channel
              (get_pixel (pComp_image.add (((y : Int) * width + (x : Int)) * comp_image_comps))
                luma_only comp_image_comps) c -
            channel
              (get_pixel (pUncomp_image_data.add (((y : Int) * width + (x : Int)) * uncomp_comps))
                luma_only uncomp_comps) c|) ∧
    (∀ d ∈ abs_differences width height pComp_image comp_image_comps pUncomp_image_data
        uncomp_comps luma_only, 0 ≤ d ∧ d ≤ 255) ∧
    (∃ hist, image_compare_hist width height pComp_image comp_image_comps pUncomp_image_data
        uncomp_comps luma_only = some hist ∧
      ∀ i, hist i = (abs_differences width height pComp_image comp_image_comps
        pUncomp_image_data uncomp_comps luma_only).count i) ∧
    (∃ m ∈ abs_differences width height pComp_image comp_image_comps pUncomp_image_data
        uncomp_comps luma_only,
      (∀ d ∈ abs_differences width height pComp_image comp_image_comps pUncomp_image_data
        uncomp_comps luma_only, d ≤ m) ∧
      image_compare_max_err width height pComp_image comp_image_comps pUncomp_image_data
        uncomp_comps luma_only = some (m : ℚ)) := by
  have hrange := abs_differences_range width height pComp_image comp_image_comps
    pUncomp_image_data uncomp_comps luma_only
  have hhist := image_compare_hist_eq width height pComp_image comp_image_comps
    pUncomp_image_data uncomp_comps luma_only (by omega) (by omega) hs1 hs2
  rw [foldlM_hist_increment _ _ hrange] at hhist
  refine ⟨mem_abs_differences _ _ _ _ _ _ _, hrange, ⟨_, hhist, fun i => by simp⟩, ?_⟩
  generalize hl : abs_differences width height pComp_image comp_image_comps
    pUncomp_image_data uncomp_comps luma_only = l at hrange hhist
  have hne : ∃ d0, d0 ∈ l := by
    rw [← hl]
    refine ⟨_, (mem_abs_differences _ _ _ _ _ _ _ _).2 ⟨0, 0, 0, ?_, ?_, by decide, rfl⟩⟩
    · simp only [Nat.cast_zero]; omega
    · simp only [Nat.cast_zero]; omega
  obtain ⟨k, hk, hle, hmem⟩ := max_err_of_range (fun i => 0 + l.count i) 256
  have hcount : ∀ i : Int, (0 + l.count i ≠ 0) ↔ i ∈ l := by
    intro i
    rw [Nat.zero_add, Ne, List.count_eq_zero, not_not]
  have hub : ∀ d ∈ l, d ≤ (k : Int) := by
    intro d hd
    obtain ⟨h0, h255⟩ := hrange d hd
    obtain ⟨n, rfl⟩ := Int.eq_ofNat_of_zero_le h0
    have := hle n (by omega) ((hcount _).2 hd)
    exact_mod_cast this
  have hkmem : (k : Int) ∈ l := by
    rcases hmem with h | ⟨_, h⟩
    · obtain ⟨d0, hd0⟩ := hne
      have h1 := hub d0 hd0
      have h2 := (hrange d0 hd0).1
      have : d0 = (k : Int) := by subst h; simp only [Nat.cast_zero] at h1 ⊢; omega
      rw [← this]; exact hd0
    · exact (hcount _).1 h
  refine ⟨(k : Int), hkmem, hub, ?_⟩
  simp only [image_compare_max_err, hhist, Option.map_some', image_compare_sums]
  rw [hk]
  simp

/-- Witness for C13: for the 1x1 RGB images (255, 0, 0) and (250, 3, 0) the value
stored in `max_err` is one of the differences and bounds them all. -/
theorem image_compare_spec_witness :
    ∃ m ∈ abs_differences 1 1 (image_of_bytes [255, 0, 0]) 3 (image_of_bytes [250, 3, 0]) 3
        false,
      (∀ d ∈ abs_differences 1 1 (image_of_bytes [255, 0, 0]) 3 (image_of_bytes [250, 3, 0]) 3
        false, d ≤ m) ∧
      image_compare_max_err 1 1 (image_of_bytes [255, 0, 0]) 3 (image_of_bytes [250, 3, 0]) 3
        false = some (m : ℚ) :=
  (image_compare_spec 1 1 (by decide) (by decide) (image_of_bytes [255, 0, 0]) 3
    (image_of_bytes [250, 3, 0]) 3 false (by decide) (by decide) (by decide) (by decide)).2.2.2

/-! ### The reads of `ppArgs` -/

theorem parse_switch_reads (a : CStr) (o o2 : Options) (h : parse_switch a o = .ok o2) :
    o2.reads = o.reads ∧ o2.arg_index = o.arg_index := by
  unfold parse_switch at h
  split at h
  all_goals first
    | (cases h <;> exact ⟨rfl, rfl⟩)
    | (split_ifs at h <;> cases h <;> exact ⟨rfl, rfl⟩)
    | (split at h
       · cases h
         exact ⟨rfl, rfl⟩
       · cases h)

/-- The option loop reads `ppArgs` only at indices of arguments that exist. -/
theorem parse_loop_reads (rest : List CStr) (o o1 : Options)
    (h : parse_loop rest o = .ok o1 ∨ ∃ e, parse_loop rest o = .error (e, o1)) :
    ∀ i ∈ o1.reads, i ∈ o.reads ∨ (o.arg_index ≤ i ∧ i < o.arg_index + rest.length) := by
  induction rest generalizing o with
  | nil =>
    simp only [parse_loop, Except.ok.injEq, reduceCtorEq, exists_false, or_false] at h
    subst h
    intro i hi
    exact Or.inl hi
  | cons a rest ih =>
    unfold parse_loop at h
    simp only at h
    have hstep : ∀ i ∈ o.reads ++ [o.arg_index],
        i ∈ o.reads ∨ (o.arg_index ≤ i ∧ i < o.arg_index + (a :: rest).length) := by
      intro i hi
      rcases List.mem_append.1 hi with hi | hi
      · exact Or.inl hi
      · simp only [List.mem_singleton] at hi
        subst hi
        exact Or.inr ⟨le_refl _, by simp⟩
    by_cases hdash : a.at 0 ≠ '-'
    · rw [if_pos hdash] at h
      simp only [Except.ok.injEq, reduceCtorEq, exists_false, or_false] at h
      subst h
      exact hstep
    · rw [if_neg hdash] at h
      cases hsw : parse_switch a { o with reads := o.reads ++ [o.arg_index] } with
      | error e0 =>
        simp only [hsw, reduceCtorEq, Except.error.injEq, Prod.mk.injEq, false_or] at h
        obtain ⟨_, _, h⟩ := h
        subst h
        exact hstep
      | ok o2 =>
        simp only [hsw] at h
        obtain ⟨hr, ha⟩ := parse_switch_reads _ _ _ hsw
        simp only at hr ha
        intro i hi
        rcases ih { o2 with arg_index := o2.arg_index + 1 } h i hi with h1 | ⟨h1, h2⟩
        · simp only [hr] at h1
          exact hstep i h1
        · simp only [ha, List.length_cons] at h1 h2 ⊢
          exact Or.inr ⟨by omega, by omega⟩

theorem main_reload_reads (w : World) (o : Options) (dst : Option CStr) (img : LoadedImage)
    (p : params) (reads : List Nat) : (main_reload w o dst img p reads).reads = reads := by
  unfold main_reload
  split
  · rfl
  · split_ifs <;> rfl

/-- The encode mode reads both file names, whatever the number of arguments is. -/
theorem main_encode_reads (w : World) (ppArgs : List CStr) (o : Options) :
    (main_encode w ppArgs o).reads = o.reads ++ [o.arg_index, o.arg_index + 1] := by
  have hq : ¬ ((75 : Int) < 1 ∨ (75 : Int) > 100) := by decide
  unfold main_encode
  dsimp only
  rw [if_neg hq]
  cases w.stbi_load (ppArgs.get? o.arg_index) with
  | none => rfl
  | some img =>
    dsimp only
    split_ifs <;> first | rfl | exact main_reload_reads _ _ _ _ _ _

/-- The reads of the option loop of `main` are within `ppArgs`. -/
theorem parse_reads_in_bounds (ppArgs : List CStr) (o : Options)
    (h : parse_loop (ppArgs.drop 1) Options.init = .ok o ∨
      ∃ e, parse_loop (ppArgs.drop 1) Options.init = .error (e, o)) :
    ∀ i ∈ o.reads, i < ppArgs.length := by
  intro i hi
  rcases parse_loop_reads _ _ _ h i hi with h1 | ⟨h1, h2⟩
  · simp [Options.init] at h1
  · simp only [Options.init, List.length_drop] at h1 h2
    omega

/-- `main` reads `ppArgs` at an index without argument exactly when it reaches the
encode mode with fewer than two file arguments. -/
theorem main_reads_in_bounds_iff (w : World) (ppArgs : List CStr) :
    (∀ i ∈ (main w ppArgs).reads, i < ppArgs.length) ↔
      ¬ ((∀ a ∈ leading_options ppArgs, recognised_option a) ∧
        option_given (leading_options ppArgs) 'x' = false ∧
        option_given (leading_options ppArgs) 'd' = false ∧
        (file_arguments ppArgs).length < 2) := by
  by_cases hrec : ∀ a ∈ leading_options ppArgs, recognised_option a
  swap
  · obtain ⟨e, o, h1, _⟩ := (parse_loop_spec (ppArgs.drop 1) Options.init).2 hrec
    have hm : (main w ppArgs).reads = o.reads := by
      unfold main
      rw [h1]
      cases e <;> rfl
    rw [hm]
    exact ⟨fun _ h => hrec h.1, fun _ => parse_reads_in_bounds ppArgs o (Or.inr ⟨e, h1⟩)⟩
  obtain ⟨o, h1, hp⟩ := (parse_loop_spec (ppArgs.drop 1) Options.init).1 hrec
  have hm : main w ppArgs = main_modes w ppArgs o := by unfold main; rw [h1]
  have hb := parse_reads_in_bounds ppArgs o (Or.inl h1)
  have hp2 : ParsedFrom Options.init (leading_options ppArgs) o := hp
  obtain ⟨harg, hx, hd, _⟩ := parsedFrom_init (leading_options ppArgs) o hp2
  have a1 := arg_count_lt ppArgs 1 (by decide)
  have a2 := arg_count_lt ppArgs 2 (by decide)
  rw [← harg] at a1 a2
  have hlen := congrArg List.length (options_append_files ppArgs)
  simp only [List.length_append, List.length_drop] at hlen
  rw [hm]
  unfold main_modes
  dsimp only
  rw [hx, hd]
  by_cases hgx : option_given (leading_options ppArgs) 'x' = true
  · simp only [hgx, if_true, Bool.true_eq_false, false_and, and_false, not_false_eq_true,
      iff_true]
    split_ifs with hlt
    · exact hb
    · intro i hi
      rcases List.mem_append.1 hi with hi | hi
      · exact hb i hi
      · simp only [List.mem_singleton] at hi
        omega
  have hgx0 : option_given (leading_options ppArgs) 'x' = false := by simpa using hgx
  by_cases hgd : option_given (leading_options ppArgs) 'd' = true
  · simp only [hgx0, hgd, Bool.false_eq_true, if_false, if_true, Bool.true_eq_false, false_and,
      and_false, not_false_eq_true, iff_true]
    split_ifs with hlt
    · exact hb
    · intro i hi
      rcases List.mem_append.1 hi with hi | hi
      · exact hb i hi
      · simp only [List.mem_cons, List.mem_singleton, List.mem_nil_iff, or_false] at hi
        omega
  have hgd0 : option_given (leading_options ppArgs) 'd' = false := by simpa using hgd
  simp only [hgx0, hgd0, Bool.false_eq_true, if_false, true_and, and_true, main_encode_reads]
  constructor
  · intro hall hlt
    have := hall (o.arg_index + 1) (by simp)
    omega
  · intro hn i hi
    rcases List.mem_append.1 hi with hi | hi
    · exact hb i hi
    · simp only [List.mem_cons, List.mem_singleton, List.mem_nil_iff, or_false] at hi
      have : ¬ (file_arguments ppArgs).length < 2 := fun h => hn ⟨hrec, h⟩
      omega

/-- C14 fails on the code: `jpge` without arguments has `arg_c = 1`, and `main` reads
`ppArgs[1]` and `ppArgs[2]` as the source and destination file names; `jpge -x` and
`jpge -d in`, which lack a file argument too, read only arguments that exist and
return through `print_usage`. In general `main` reads `ppArgs` at an index of at
least `arg_c` exactly when it reaches the encode mode (recognised options, neither
`-x` nor `-d`) with fewer than two file arguments. -/
theorem main_reads_past_arguments :
    args_none.length = 1 ∧
    (∀ w, (main w args_none).reads = [1, 2]) ∧
    (∀ w, (main w args_exhaustive_no_file).reads = [1] ∧
      (main w args_exhaustive_no_file).site = .usage_exhaustive) ∧
    (∀ w, (main w args_decompress_one_file).reads = [1, 2] ∧
      args_decompress_one_file.length = 3 ∧
      (main w args_decompress_one_file).site = .usage_decompress) ∧
    (∀ w ppArgs,
      (∀ i ∈ (main w ppArgs).reads, i < ppArgs.length) ↔
        ¬ ((∀ a ∈ leading_options ppArgs, recognised_option a) ∧
          option_given (leading_options ppArgs) 'x' = false ∧
          option_given (leading_options ppArgs) 'd' = false ∧
          (file_arguments ppArgs).length < 2)) := by
  refine ⟨rfl, fun w => ?_, fun w => ⟨rfl, rfl⟩, fun w => ⟨rfl, rfl, rfl⟩,
    main_reads_in_bounds_iff⟩
  have h : main w args_none = main_encode w args_none Options.init := rfl
  rw [h, main_encode_reads]
  rfl

end driver

namespace jpgd

theorem jpgd_status_mem_all (s : jpgd_status) : s ∈ jpgd_status.all := by
  cases s <;> decide

/-- C15: in `jpgd_status`, `JPGD_SUCCESS` is 0, `JPGD_FAILED` is -1 and `JPGD_DONE` is
1; the 33 named error kinds from `JPGD_BAD_DHT_COUNTS` to `JPGD_NOTENOUGHMEM` have
the consecutive values -256..-224 in declaration order; the 36 enumerators have
pairwise distinct values; and a status is `JPGD_FAILED` or a named error kind
exactly when its value is negative. -/
theorem jpgd_status_values :
    jpgd_status.JPGD_SUCCESS.value = 0 ∧ jpgd_status.JPGD_FAILED.value = -1 ∧
    jpgd_status.JPGD_DONE.value = 1 ∧
    jpgd_status.error_kinds.length = 33 ∧
    jpgd_status.error_kinds.head? = some .JPGD_BAD_DHT_COUNTS ∧
    jpgd_status.error_kinds.getLast? = some .JPGD_NOTENOUGHMEM ∧
    jpgd_status.error_kinds.map jpgd_status.value = (List.range 33).map (fun i => -256 + (i : Int)) ∧
    jpgd_status.JPGD_NOTENOUGHMEM.value = -224 ∧
    jpgd_status.all = [.JPGD_SUCCESS, .JPGD_FAILED, .JPGD_DONE] ++ jpgd_status.error_kinds ∧
    jpgd_status.all.length = 36 ∧
    (∀ s : jpgd_status, s ∈ jpgd_status.all) ∧
    (jpgd_status.all.map jpgd_status.value).Nodup ∧
    (∀ s t : jpgd_status, s.value = t.value → s = t) ∧
    (∀ s : jpgd_status, s.denotes_failure ↔ s.value < 0) := by
  have hnodup : (jpgd_status.all.map jpgd_status.value).Nodup := by decide
  refine ⟨by decide, by decide, by decide, by decide, by decide, by decide, by decide, by decide,
    by decide, by decide, jpgd_status_mem_all, hnodup, ?_, ?_⟩
  · intro s t h
    exact List.inj_on_of_nodup_map hnodup (jpgd_status_mem_all s) (jpgd_status_mem_all t) h
  · intro s
    cases s <;> decide

end jpgd
